import Mathlib

/-!
Verification of libass `ass_render.c` (PyonFX-modified) rendering-pipeline claims.

Shallow embedding conventions:
* C `int`/`int32_t`/`long long` values are modelled as `Int` (no overflow is
  relevant to the claims below; all quantities stay far below 2^31 in the
  scenarios covered, and the quantizer rejects everything at 10^6 already).
* C `double` arithmetic is modelled exactly: by `ℚ` where the source only uses
  field operations, `fabs`, comparisons and `lrint`, and by `ℝ` where the
  source calls `exp`/`log` (blur quantization).
* Pointers used only as identities are modelled as `Nat` ids; nullable
  pointers as `Option`; early-`return` failure paths as `Option`/guards.
* External collaborators (parsing, shaping, rasterization) are opaque
  parameters, as in the source they are separate translation units.
-/

/-! ### Frame diff (`ass_image_compare`, `ass_detect_change`) -/

/-- One output image of a frame, as compared by `ass_image_compare`:
dimensions, stride, packed color, bitmap pointer (modelled as an id),
and device coordinates. -/
structure AssImage where
  w : Int
  h : Int
  stride : Int
  color : Int
  bitmap : Nat
  dst_x : Int
  dst_y : Int
deriving DecidableEq, Repr

/-- `ass_image_compare`: 0 if identical, 1 if only the position differs,
2 if the content differs. -/
def ass_image_compare (i1 i2 : AssImage) : Nat :=
  if i1.w ≠ i2.w then 2
  else if i1.h ≠ i2.h then 2
  else if i1.stride ≠ i2.stride then 2
  else if i1.color ≠ i2.color then 2
  else if i1.bitmap ≠ i2.bitmap then 2
  else if i1.dst_x ≠ i2.dst_x then 1
  else if i1.dst_y ≠ i2.dst_y then 1
  else 0

/-- The `while (img && diff < 2)` loop of `ass_detect_change`: walks both
lists, accumulating the maximal pairwise difference, stopping early once the
difference reaches 2 or the previous list runs out.  Returns the unconsumed
tail of the current list together with the accumulated `diff`. -/
def detect_change_loop : List AssImage → List AssImage → Nat → List AssImage × Nat
  | [], img2, diff => (img2, diff)
  | i :: is, img2, diff =>
    if diff < 2 then
      match img2 with
      | [] => ([], 2)
      | j :: js => detect_change_loop is js (max diff (ass_image_compare i j))
    else (img2, diff)

/-- `ass_detect_change`: three-way diff of the previous frame's image list
against the current one. -/
def ass_detect_change (prev cur : List AssImage) : Nat :=
  let r := detect_change_loop prev cur 0
  if r.1 ≠ [] then 2 else r.2

/-- Content inequality of a positional image pair: bitmap pointer identity,
width, height, stride or packed color differ (the fields whose mismatch
makes `ass_image_compare` return 2). -/
def image_content_ne (i1 i2 : AssImage) : Prop :=
  i1.w ≠ i2.w ∨ i1.h ≠ i2.h ∨ i1.stride ≠ i2.stride ∨ i1.color ≠ i2.color ∨
    i1.bitmap ≠ i2.bitmap

/-- Device-position inequality of a positional image pair. -/
def image_pos_ne (i1 i2 : AssImage) : Prop :=
  i1.dst_x ≠ i2.dst_x ∨ i1.dst_y ≠ i2.dst_y

instance (i1 i2 : AssImage) : Decidable (image_content_ne i1 i2) := by
  unfold image_content_ne; infer_instance

instance (i1 i2 : AssImage) : Decidable (image_pos_ne i1 i2) := by
  unfold image_pos_ne; infer_instance

/-- The two image lists differ in content: different lengths, or some
positionally paired images differ in a content field. -/
def lists_content_changed (prev cur : List AssImage) : Prop :=
  prev.length ≠ cur.length ∨ ∃ p ∈ prev.zip cur, image_content_ne p.1 p.2

/-- Some positionally paired images differ in device position. -/
def lists_pos_changed (prev cur : List AssImage) : Prop :=
  ∃ p ∈ prev.zip cur, image_pos_ne p.1 p.2

lemma ass_image_compare_le_two (i1 i2 : AssImage) : ass_image_compare i1 i2 ≤ 2 := by
  unfold ass_image_compare
  split_ifs <;> omega

lemma ass_image_compare_eq_two_iff (i1 i2 : AssImage) :
    ass_image_compare i1 i2 = 2 ↔ image_content_ne i1 i2 := by
  unfold ass_image_compare image_content_ne
  split_ifs <;> tauto

lemma ass_image_compare_eq_one_iff (i1 i2 : AssImage) :
    ass_image_compare i1 i2 = 1 ↔ ¬ image_content_ne i1 i2 ∧ image_pos_ne i1 i2 := by
  unfold ass_image_compare image_content_ne image_pos_ne
  split_ifs <;> tauto

/-- Maximum of a list of naturals (with default 0), as accumulated by the
diff loop. -/
def natListMax (l : List Nat) : Nat := l.foldr max 0

lemma natListMax_le_iff (l : List Nat) (k : Nat) :
    natListMax l ≤ k ↔ ∀ x ∈ l, x ≤ k := by
  induction l with
  | nil => simp [natListMax]
  | cons x xs ih =>
    simp only [natListMax, List.foldr] at ih ⊢
    constructor
    · intro h y hy
      rcases List.mem_cons.mp hy with rfl | hy2
      · omega
      · have := ih.mp (by omega) y hy2
        omega
    · intro h
      have h1 := h x (by simp)
      have h2 := ih.mpr fun y hy => h y (by simp [hy])
      omega

lemma detect_change_loop_spec (prev : List AssImage) :
    ∀ (cur : List AssImage) (diff : Nat), diff ≤ 2 →
    (let r := detect_change_loop prev cur diff
     (if r.1 ≠ [] then 2 else r.2)) =
      if prev.length ≠ cur.length then 2
      else max diff (natListMax ((prev.zip cur).map fun p => ass_image_compare p.1 p.2)) := by
  induction prev with
  | nil =>
    intro cur diff hd
    cases cur with
    | nil => simp [detect_change_loop, natListMax]
    | cons j js => simp [detect_change_loop]
  | cons i is ih =>
    intro cur diff hd
    cases cur with
    | nil =>
      by_cases h2 : diff < 2
      · simp [detect_change_loop, h2]
      · have hde : diff = 2 := by omega
        subst hde
        simp [detect_change_loop]
    | cons j js =>
      by_cases h2 : diff < 2
      · have hstep : max diff (ass_image_compare i j) ≤ 2 :=
          max_le (by omega) (ass_image_compare_le_two i j)
        have := ih js (max diff (ass_image_compare i j)) hstep
        simp only [detect_change_loop, if_pos h2] at *
        rw [this]
        by_cases hlen : is.length ≠ js.length
        · simp [hlen]
        · simp only [List.length_cons, List.zip_cons_cons, List.map_cons]
          have hlen2 : ¬ (is.length + 1 ≠ js.length + 1) := by omega
          simp only [if_neg hlen, if_neg hlen2, natListMax, List.foldr]
          omega
      · have hdeq : diff = 2 := by omega
        subst hdeq
        have hmax : natListMax (((i :: is).zip (j :: js)).map
            fun p => ass_image_compare p.1 p.2) ≤ 2 := by
          rw [natListMax_le_iff]
          intro x hx
          simp only [List.mem_map] at hx
          obtain ⟨p, _, hp⟩ := hx
          exact hp ▸ ass_image_compare_le_two p.1 p.2
        simp only [detect_change_loop, if_neg h2]
        split_ifs <;> omega

lemma natListMax_cmp_le (prev cur : List AssImage) :
    natListMax ((prev.zip cur).map fun p => ass_image_compare p.1 p.2) ≤ 2 := by
  rw [natListMax_le_iff]
  intro x hx
  simp only [List.mem_map] at hx
  obtain ⟨p, _, hp⟩ := hx
  exact hp ▸ ass_image_compare_le_two p.1 p.2

lemma ass_detect_change_eq_if (prev cur : List AssImage) :
    ass_detect_change prev cur =
      if prev.length ≠ cur.length then 2
      else natListMax ((prev.zip cur).map fun p => ass_image_compare p.1 p.2) := by
  have := detect_change_loop_spec prev cur 0 (by omega)
  simp only at this
  unfold ass_detect_change
  rw [this]
  split_ifs <;> simp

lemma natListMax_eq_two_iff (l : List Nat) (hle : ∀ x ∈ l, x ≤ 2) :
    natListMax l = 2 ↔ ∃ x ∈ l, x = 2 := by
  induction l with
  | nil => simp [natListMax]
  | cons x xs ih =>
    have hx := hle x (by simp)
    have hxs : ∀ y ∈ xs, y ≤ 2 := fun y hy => hle y (by simp [hy])
    have hmax : natListMax xs ≤ 2 := (natListMax_le_iff xs 2).mpr hxs
    have hih := ih hxs
    simp only [natListMax, List.foldr] at *
    constructor
    · intro h
      by_cases hx2 : x = 2
      · exact ⟨x, by simp, hx2⟩
      · have hfold : List.foldr max 0 xs = 2 := by omega
        obtain ⟨y, hy, hy2⟩ := hih.mp hfold
        exact ⟨y, by simp [hy], hy2⟩
    · rintro ⟨y, hy, rfl⟩
      rcases List.mem_cons.mp hy with h | hy2
      · omega
      · have := hih.mpr ⟨2, hy2, rfl⟩
        omega

/-- **C6.** `ass_detect_change` returns 2 iff the two lists have different
lengths or some positionally paired images differ in bitmap pointer
identity, width, height, stride, or packed color; returns 1 iff all those
fields match pairwise but some pair differs in device x or y; and returns 0
otherwise. -/
theorem ass_detect_change_three_way (prev cur : List AssImage) :
    (ass_detect_change prev cur = 2 ↔ lists_content_changed prev cur) ∧
    (ass_detect_change prev cur = 1 ↔
      ¬ lists_content_changed prev cur ∧ lists_pos_changed prev cur) ∧
    (ass_detect_change prev cur = 0 ↔
      ¬ lists_content_changed prev cur ∧ ¬ lists_pos_changed prev cur) := by
  rw [ass_detect_change_eq_if]
  have hle : ∀ x ∈ (prev.zip cur).map (fun p => ass_image_compare p.1 p.2), x ≤ 2 := by
    intro x hx
    simp only [List.mem_map] at hx
    obtain ⟨p, _, hp⟩ := hx
    exact hp ▸ ass_image_compare_le_two p.1 p.2
  have hmle := natListMax_cmp_le prev cur
  by_cases hlen : prev.length ≠ cur.length
  · simp only [if_pos hlen]
    refine ⟨?_, ?_, ?_⟩
    · constructor
      · intro _
        exact Or.inl hlen
      · intro _
        trivial
    · constructor
      · intro h; omega
      · rintro ⟨hn, _⟩; exact absurd (Or.inl hlen) hn
    · constructor
      · intro h; omega
      · rintro ⟨hn, _⟩; exact absurd (Or.inl hlen) hn
  · simp only [if_neg hlen]
    have hcontent : lists_content_changed prev cur ↔
        natListMax ((prev.zip cur).map fun p => ass_image_compare p.1 p.2) = 2 := by
      rw [natListMax_eq_two_iff _ hle]
      unfold lists_content_changed
      constructor
      · rintro (h | ⟨p, hp, hne⟩)
        · exact absurd h hlen
        · exact ⟨ass_image_compare p.1 p.2, List.mem_map_of_mem _ hp,
            (ass_image_compare_eq_two_iff p.1 p.2).mpr hne⟩
      · rintro ⟨x, hx, rfl⟩
        simp only [List.mem_map] at hx
        obtain ⟨p, hp, hpeq⟩ := hx
        exact Or.inr ⟨p, hp, (ass_image_compare_eq_two_iff p.1 p.2).mp hpeq⟩
    have hpos : ∀ (hnc : ¬ lists_content_changed prev cur),
        (lists_pos_changed prev cur ↔
          natListMax ((prev.zip cur).map fun p => ass_image_compare p.1 p.2) = 1) := by
      intro hnc
      have hnc2 : ∀ p ∈ prev.zip cur, ¬ image_content_ne p.1 p.2 := by
        intro p hp hne
        exact hnc (Or.inr ⟨p, hp, hne⟩)
      have hcle : ∀ x ∈ (prev.zip cur).map (fun p => ass_image_compare p.1 p.2), x ≤ 1 := by
        intro x hx
        simp only [List.mem_map] at hx
        obtain ⟨p, hp, rfl⟩ := hx
        have h2 := (not_iff_not.mpr (ass_image_compare_eq_two_iff p.1 p.2)).mpr (hnc2 p hp)
        have := ass_image_compare_le_two p.1 p.2
        omega
      constructor
      · rintro ⟨p, hp, hpne⟩
        have h1 : ass_image_compare p.1 p.2 = 1 :=
          (ass_image_compare_eq_one_iff p.1 p.2).mpr ⟨hnc2 p hp, hpne⟩
        have hmem : (1 : ℕ) ∈ (prev.zip cur).map (fun p => ass_image_compare p.1 p.2) :=
          h1 ▸ List.mem_map_of_mem _ hp
        have hub := (natListMax_le_iff _ 1).mpr hcle
        have hlb : ∀ l : List Nat, (1 : ℕ) ∈ l → 1 ≤ natListMax l := by
          intro l hl
          induction l with
          | nil => simp at hl
          | cons y ys ih =>
            simp only [natListMax, List.foldr] at *
            rcases List.mem_cons.mp hl with rfl | hl2
            · omega
            · have := ih hl2; omega
        have := hlb _ hmem
        omega
      · intro h1
        have := natListMax_eq_two_iff ((prev.zip cur).map fun p => ass_image_compare p.1 p.2) hle
        have hex : ∃ x ∈ (prev.zip cur).map (fun p => ass_image_compare p.1 p.2), 1 ≤ x := by
          by_contra hno
          push_neg at hno
          have : natListMax ((prev.zip cur).map fun p => ass_image_compare p.1 p.2) = 0 := by
            have := (natListMax_le_iff ((prev.zip cur).map fun p => ass_image_compare p.1 p.2) 0).mpr
              (fun x hx => by have := hno x hx; omega)
            omega
          omega
        obtain ⟨x, hx, hx1⟩ := hex
        simp only [List.mem_map] at hx
        obtain ⟨p, hp, rfl⟩ := hx
        have hle1 := hcle _ (List.mem_map_of_mem _ hp)
        have : ass_image_compare p.1 p.2 = 1 := by omega
        have := (ass_image_compare_eq_one_iff p.1 p.2).mp this
        exact ⟨p, hp, this.2⟩
    constructor
    · exact hcontent.symm
    constructor
    · constructor
      · intro h1
        have hnc : ¬ lists_content_changed prev cur := fun hc => by
          have := hcontent.mp hc
          omega
        exact ⟨hnc, (hpos hnc).mpr h1⟩
      · rintro ⟨hnc, hp⟩
        exact (hpos hnc).mp hp
    · constructor
      · intro h0
        have hnc : ¬ lists_content_changed prev cur := fun hc => by
          have := hcontent.mp hc
          omega
        refine ⟨hnc, fun hp => ?_⟩
        have := (hpos hnc).mp hp
        omega
      · rintro ⟨hnc, hnp⟩
        have h2 : natListMax ((prev.zip cur).map fun p => ass_image_compare p.1 p.2) ≠ 2 :=
          fun h => hnc (hcontent.mpr h)
        have h1 : natListMax ((prev.zip cur).map fun p => ass_image_compare p.1 p.2) ≠ 1 := by
          intro h
          exact hnp ((hpos hnc).mpr h)
        omega

/-! ### Frame assembly (`ass_render_event`, `ass_render_frame`, `cmp_event_layer`) -/

/-- An ASS event as used by the frame assembler: timing, layering and the
fields checked by `ass_render_event`.  `Text` is the (nullable) text
pointer; its contents are consumed by the opaque parser. -/
structure AssEvent where
  Start : Int
  Duration : Int
  Layer : Int
  ReadOrder : Int
  Style : Nat
  Text : Option (List Nat)
deriving DecidableEq, Repr

/-- The outcome of the opaque per-event sub-passes invoked by
`ass_render_event`: whether `parse_events` succeeds, how many glyphs survive
parsing (`text_info->length`), and whether `ass_shaper_shape` succeeds.
Parsing and shaping live in other translation units / libraries, so they are
parameters of the embedding. -/
structure RenderOutcome where
  parseOk : Bool
  parsedLength : Nat
  shapeOk : Bool
deriving DecidableEq, Repr

/-- `ass_render_event` control flow: the event is rejected exactly on the
explicit early-`return false` paths of the source; afterwards the function
always reaches `return true`. -/
def ass_render_event (nStyles : Nat) (e : AssEvent) (oc : RenderOutcome) : Bool :=
  if e.Style ≥ nStyles then false
  else if e.Text = none then false
  else if oc.parseOk = false then false
  else if oc.parsedLength = 0 then false
  else if oc.shapeOk = false then false
  else true

/-- `cmp_event_layer`: the qsort comparator ordering event images by layer,
then by read order. -/
def cmp_event_layer (e1 e2 : AssEvent) : Int :=
  if e1.Layer < e2.Layer then -1
  else if e1.Layer > e2.Layer then 1
  else if e1.ReadOrder < e2.ReadOrder then -1
  else if e1.ReadOrder > e2.ReadOrder then 1
  else 0

/-- The non-strict order induced by `cmp_event_layer`, used for sorting. -/
def event_le (e1 e2 : AssEvent) : Bool := cmp_event_layer e1 e2 ≤ 0

/-- The event-selection test of the `ass_render_frame` loop:
`event->Start <= now && now < event->Start + event->Duration`. -/
def event_visible (now : Int) (e : AssEvent) : Bool :=
  e.Start ≤ now && now < e.Start + e.Duration

/-- The events `ass_render_frame` attempts to render: all events of the
track whose interval contains `now`, in track order. -/
def frame_attempted (events : List AssEvent) (now : Int) : List AssEvent :=
  events.filter (event_visible now)

/-- The successfully rendered events accumulated in `eimg` (one entry per
event for which `ass_render_event` returned true), in track order. -/
def frame_rendered (events : List AssEvent) (now : Int) (nStyles : Nat)
    (oc : AssEvent → RenderOutcome) : List AssEvent :=
  (frame_attempted events now).filter fun e => ass_render_event nStyles e (oc e)

/-- The `eimg` array after the qsort by `cmp_event_layer` (the order of the
final image list of the frame). -/
def frame_sorted (events : List AssEvent) (now : Int) (nStyles : Nat)
    (oc : AssEvent → RenderOutcome) : List AssEvent :=
  (frame_rendered events now nStyles oc).mergeSort event_le

/-- The (Layer, ReadOrder)-lexicographic order as a proposition. -/
def layer_read_le (e1 e2 : AssEvent) : Prop :=
  e1.Layer < e2.Layer ∨ (e1.Layer = e2.Layer ∧ e1.ReadOrder ≤ e2.ReadOrder)

lemma event_le_iff (e1 e2 : AssEvent) : event_le e1 e2 = true ↔ layer_read_le e1 e2 := by
  unfold event_le cmp_event_layer layer_read_le
  split_ifs <;> simp <;> omega

lemma event_le_total (e1 e2 : AssEvent) : event_le e1 e2 || event_le e2 e1 := by
  rw [Bool.or_eq_true]
  by_cases h : event_le e1 e2 = true
  · exact Or.inl h
  · refine Or.inr ?_
    rw [event_le_iff] at h ⊢
    unfold layer_read_le at h ⊢
    omega

lemma event_le_trans (e1 e2 e3 : AssEvent) :
    event_le e1 e2 → event_le e2 e3 → event_le e1 e3 := by
  intro h1 h2
  have g1 := (event_le_iff e1 e2).mp h1
  have g2 := (event_le_iff e2 e3).mp h2
  refine (event_le_iff e1 e3).mpr ?_
  unfold layer_read_le at *
  omega

/-- **C9.** For a frame at timestamp `now`, `ass_render_frame` attempts to
render exactly the events with `Start ≤ now < Start + Duration` (half-open
interval membership), and the successfully rendered events are output
ordered by (Layer, ReadOrder) ascending (a permutation of the rendered
events sorted by `cmp_event_layer`). -/
theorem ass_render_frame_selection_order (events : List AssEvent) (now : Int)
    (nStyles : Nat) (oc : AssEvent → RenderOutcome) :
    (∀ e, e ∈ frame_attempted events now ↔
      e ∈ events ∧ e.Start ≤ now ∧ now < e.Start + e.Duration) ∧
    (frame_sorted events now nStyles oc).Perm (frame_rendered events now nStyles oc) ∧
    (frame_sorted events now nStyles oc).Pairwise layer_read_le := by
  refine ⟨?_, ?_, ?_⟩
  · intro e
    unfold frame_attempted
    rw [List.mem_filter]
    unfold event_visible
    simp only [Bool.and_eq_true, decide_eq_true_eq]
  · exact List.mergeSort_perm _ _
  · have h := List.sorted_mergeSort
      (fun a b c => event_le_trans a b c) event_le_total
      (frame_rendered events now nStyles oc)
    exact h.imp fun hab => (event_le_iff _ _).mp hab

/-- **C7.** `ass_render_event` fails (and the event contributes no images)
exactly when the style index is out of range, the text pointer is null,
parsing fails or yields zero glyphs, or shaping fails; and a failed event
does not prevent other events of the frame from being rendered: any other
visible event that renders successfully still appears in the frame list. -/
theorem ass_render_event_failure (nStyles : Nat) (e : AssEvent) (oc : RenderOutcome) :
    (ass_render_event nStyles e oc = false ↔
      (e.Style ≥ nStyles ∨ e.Text = none ∨ oc.parseOk = false ∨
        oc.parsedLength = 0 ∨ oc.shapeOk = false)) ∧
    (∀ (events : List AssEvent) (now : Int) (ocf : AssEvent → RenderOutcome),
      e ∈ events → event_visible now e = true →
      ass_render_event nStyles e (ocf e) = true →
      e ∈ frame_rendered events now nStyles ocf) := by
  constructor
  · unfold ass_render_event
    split_ifs <;> simp_all
  · intro events now ocf hmem hvis hok
    unfold frame_rendered frame_attempted
    rw [List.mem_filter, List.mem_filter]
    exact ⟨⟨hmem, hvis⟩, hok⟩

/-- Closed witness for C7: in a two-event frame where the first event fails
(no style), the second, valid event is still rendered. -/
theorem ass_render_event_failure_witness :
    ass_render_event 1
      ⟨0, 100, 0, 0, 3, some [65]⟩ ⟨true, 1, true⟩ = false ∧
    ⟨0, 100, 0, 1, 0, some [66]⟩ ∈ frame_rendered
      [⟨0, 100, 0, 0, 3, some [65]⟩, ⟨0, 100, 0, 1, 0, some [66]⟩]
      5 1 (fun _ => ⟨true, 1, true⟩) := by
  constructor
  · exact (ass_render_event_failure 1 ⟨0, 100, 0, 0, 3, some [65]⟩ ⟨true, 1, true⟩).1.mpr
      (Or.inl (by decide))
  · exact (ass_render_event_failure 1 ⟨0, 100, 0, 1, 0, some [66]⟩ ⟨true, 1, true⟩).2
      [⟨0, 100, 0, 0, 3, some [65]⟩, ⟨0, 100, 0, 1, 0, some [66]⟩]
      5 (fun _ => ⟨true, 1, true⟩) (by simp) (by decide) (by decide)

/-! ### PyonFX final y-assignment in `render_and_combine_glyphs` -/

/-- The per-glyph flags of the combining loop of
`render_and_combine_glyphs` that determine whether a combined-run record
(`current_info`) is (re)started at this glyph. -/
structure CombGlyph where
  skip : Bool
  starts_new_run : Bool
deriving DecidableEq, Repr

/-- One step of the combining loop, tracking the `new_run` flag and the
index of the glyph at which `current_info` was last assigned.
`new_run` is set by `starts_new_run` before the `skip` test; a skipped
glyph leaves `current_info` (and a pending `new_run`) untouched; a
non-skipped glyph starts a fresh run when `new_run` is pending. -/
def combine_step (st : Bool × Option Nat) (ig : Nat × CombGlyph) : Bool × Option Nat :=
  if ig.2.skip then (st.1 || ig.2.starts_new_run, st.2)
  else if st.1 || ig.2.starts_new_run then (false, some ig.1) else (false, st.2)

/-- The value of `current_info` after the combining loop: the index of the
last glyph that started a style run, if any (`new_run` starts out true). -/
def last_run_start (glyphs : List CombGlyph) : Option Nat :=
  (glyphs.enum.foldl combine_step (true, none)).2

/-- The final PyonFX loop: every glyph's `real_pos.y` is set to
`current_info->y` (modelled by `yOf` applied to the last run-start index).
Reading `current_info->y` with `current_info == NULL` is a null-pointer
dereference, modelled as `none`; an empty glyph list never executes the
loop body. -/
def real_pos_y_assignment (glyphs : List CombGlyph) (yOf : Nat → Int) : Option (List Int) :=
  match last_run_start glyphs with
  | some i => some (glyphs.map fun _ => yOf i)
  | none => if glyphs.isEmpty then some [] else none

lemma combine_step_skip (st : Bool × Option Nat) (ig : Nat × CombGlyph)
    (h : ig.2.skip = true) :
    combine_step st ig = (st.1 || ig.2.starts_new_run, st.2) := by
  unfold combine_step
  rw [if_pos h]

lemma combine_step_newrun (st : Bool × Option Nat) (ig : Nat × CombGlyph)
    (h1 : ig.2.skip = false) (h2 : (st.1 || ig.2.starts_new_run) = true) :
    combine_step st ig = (false, some ig.1) := by
  unfold combine_step
  rw [if_neg (by simp [h1]), if_pos h2]

lemma combine_step_cont (st : Bool × Option Nat) (ig : Nat × CombGlyph)
    (h1 : ig.2.skip = false) (h2 : (st.1 || ig.2.starts_new_run) = false) :
    combine_step st ig = (false, st.2) := by
  unfold combine_step
  rw [if_neg (by simp [h1]), if_neg (by simp [h2])]

lemma combine_foldl_none_iff (glyphs : List (Nat × CombGlyph)) :
    ∀ (st : Bool × Option Nat), (st.1 = false → st.2.isSome) →
      ((glyphs.foldl combine_step st).2 = none ↔
        (st.2 = none ∧ ∀ g ∈ glyphs, g.2.skip = true)) := by
  induction glyphs with
  | nil => intro st _; simp
  | cons g gs ih =>
    intro st hinv
    rw [List.foldl_cons]
    by_cases hskip : g.2.skip = true
    · rw [combine_step_skip st g hskip]
      rw [ih (st.1 || g.2.starts_new_run, st.2) (fun hf => by
        have h2 : (st.1 || g.2.starts_new_run) = false := by simpa using hf
        exact hinv (Bool.or_eq_false_iff.mp h2).1)]
      simp [hskip]
    · have hns : g.2.skip = false := by simpa using hskip
      by_cases hnr : (st.1 || g.2.starts_new_run) = true
      · rw [combine_step_newrun st g hns hnr]
        rw [ih (false, some g.1) (by simp)]
        simp [hns]
      · have hnr2 : (st.1 || g.2.starts_new_run) = false := by simpa using hnr
        have hst1 : st.1 = false := by
          have := Bool.or_eq_false_iff.mp hnr2
          exact this.1
        have hsome := hinv hst1
        rw [combine_step_cont st g hns hnr2]
        rw [ih (false, st.2) (fun _ => hsome)]
        constructor
        · rintro ⟨h1, _⟩
          rw [h1] at hsome
          simp at hsome
        · rintro ⟨_, hall⟩
          have := hall g (by simp)
          rw [this] at hns
          simp at hns

lemma last_run_start_none_iff (glyphs : List CombGlyph) :
    last_run_start glyphs = none ↔ ∀ g ∈ glyphs, g.skip = true := by
  unfold last_run_start
  rw [combine_foldl_none_iff glyphs.enum (true, none) (by simp)]
  constructor
  · rintro ⟨_, hall⟩
    intro g hg
    obtain ⟨i, hlt, hi⟩ := List.mem_iff_getElem.mp hg
    have hmem : (i, g) ∈ glyphs.enum := by
      rw [List.mem_enum_iff_getElem?]
      rw [List.getElem?_eq_getElem hlt, hi]
    exact hall (i, g) hmem
  · intro hall
    refine ⟨rfl, ?_⟩
    intro p hp
    have h := List.mem_enum_iff_getElem?.mp hp
    have hmem : p.2 ∈ glyphs := by
      obtain ⟨hlt, hget⟩ := List.getElem?_eq_some.mp h
      exact hget ▸ List.getElem_mem hlt
    exact hall p.2 hmem

/-- **C10.** After the combining loop of `render_and_combine_glyphs`
(PyonFX-modified), the final loop assigns to every glyph's `real_pos.y`
the composite y of the last started style run; this read of
`current_info->y` is well-defined exactly when some glyph of a nonempty
event is not skipped (then the first non-skipped glyph started a run):
if all surviving glyphs are skipped (e.g. whitespace-only text, which
still passes the zero-glyph check), `current_info` is still NULL at the
final loop and the read is a null-pointer dereference. -/
theorem render_combine_real_pos_y (glyphs : List CombGlyph) (yOf : Nat → Int) :
    (glyphs ≠ [] → (∀ g ∈ glyphs, g.skip = true) →
      real_pos_y_assignment glyphs yOf = none) ∧
    ((∃ g ∈ glyphs, g.skip = false) →
      ∃ i, last_run_start glyphs = some i ∧
        real_pos_y_assignment glyphs yOf = some (glyphs.map fun _ => yOf i)) := by
  constructor
  · intro hne hall
    unfold real_pos_y_assignment
    rw [(last_run_start_none_iff glyphs).mpr hall]
    simp [hne]
  · rintro ⟨g, hg, hgf⟩
    have hnone : last_run_start glyphs ≠ none := fun hn => by
      have hall := (last_run_start_none_iff glyphs).mp hn
      rw [hall g hg] at hgf
      simp at hgf
    obtain ⟨i, hi⟩ := Option.ne_none_iff_exists.mp hnone
    refine ⟨i, hi.symm, ?_⟩
    unfold real_pos_y_assignment
    rw [← hi]

/-- Closed witness for C10: a two-glyph whitespace-only event (both glyphs
skipped) hits the null `current_info` dereference; with one surviving
glyph the assignment is well-defined. -/
theorem render_combine_real_pos_y_witness :
    real_pos_y_assignment [⟨true, true⟩, ⟨true, false⟩] (fun _ => 0) = none ∧
    ∃ i, last_run_start [⟨true, true⟩, ⟨false, false⟩] = some i ∧
      real_pos_y_assignment [⟨true, true⟩, ⟨false, false⟩] (fun _ => 7) =
        some (([⟨true, true⟩, ⟨false, false⟩] : List CombGlyph).map
          fun _ => (fun _ : Nat => (7 : Int)) i) := by
  constructor
  · exact (render_combine_real_pos_y [⟨true, true⟩, ⟨true, false⟩] (fun _ => 0)).1
      (by decide) (by decide)
  · exact (render_combine_real_pos_y [⟨true, true⟩, ⟨false, false⟩] (fun _ => 7)).2
      ⟨⟨false, false⟩, by decide, rfl⟩

/-! ### Collision resolver (`overlap`, `shift_event`, `fit_rect`, `fix_collisions`) -/

/-- Axis-aligned box used for collision arithmetic. -/
structure Rect where
  y0 : Int
  y1 : Int
  x0 : Int
  x1 : Int
deriving DecidableEq, Repr

/-- `overlap`: boxes collide iff their intersection has nonzero area. -/
def rects_overlap (s1 s2 : Rect) : Bool :=
  if s1.y0 ≥ s2.y1 ∨ s2.y0 ≥ s1.y1 ∨ s1.x0 ≥ s2.x1 ∨ s2.x0 ≥ s1.x1 then false else true

/-- One output image of an event, with the fields touched by `shift_event`
(`bitmap` is the data pointer, modelled as an offset). -/
structure AssFrameImg where
  dst_y : Int
  h : Int
  stride : Int
  bitmap : Int
deriving DecidableEq, Repr

/-- The body of `shift_event`'s per-image loop: shift `dst_y`, clip the top
against row 0 (advancing the bitmap pointer), clip the bottom against the
frame height, and zero out degenerate results. -/
def shift_img (frameHeight shift : Int) (im : AssFrameImg) : AssFrameImg :=
  let im0 := { im with dst_y := im.dst_y + shift }
  let im1 := if im0.dst_y < 0 then
      { im0 with
        h := im0.h + im0.dst_y
        bitmap := im0.bitmap + (-im0.dst_y) * im0.stride
        dst_y := 0 }
    else im0
  let im2 := if im1.dst_y + im1.h ≥ frameHeight then
      { im1 with h := frameHeight - im1.dst_y }
    else im1
  if im2.h ≤ 0 then { im2 with h := 0, dst_y := 0 } else im2

/-- Cross-frame collision state of an event (`ASS_RenderPriv` after
`get_render_priv` has resolved allocation and generation). -/
structure RenderPriv where
  top : Int
  height : Int
  left : Int
  width : Int
deriving DecidableEq, Repr

/-- `EventImages`: one rendered event's image list plus collision metadata. -/
structure EventImages where
  imgs : List AssFrameImg
  top : Int
  height : Int
  left : Int
  width : Int
  detect_collisions : Bool
  shift_direction : Int
  event_priv : RenderPriv
deriving DecidableEq, Repr

/-- `shift_event`: shift all images of the event vertically (with clipping)
and update the stored `top`. -/
def shift_event (frameHeight : Int) (ei : EventImages) (shift : Int) : EventImages :=
  { ei with imgs := ei.imgs.map (shift_img frameHeight shift), top := ei.top + shift }

/-- The box of a fixed event as recorded in its render-priv. -/
def priv_rect (p : RenderPriv) : Rect :=
  { y0 := p.top, y1 := p.top + p.height, x0 := p.left, x1 := p.left + p.width }

/-- The current box of an event's images. -/
def imgs_rect (e : EventImages) : Rect :=
  { y0 := e.top, y1 := e.top + e.height, x0 := e.left, x1 := e.left + e.width }

/-- One scan step of `fit_rect` in the move-down direction: skip fixed
boxes that (at the current shift) do not overlap, otherwise place the box
just below the fixed one. -/
def fit_step_down (s : Rect) (shift : Int) (r : Rect) : Int :=
  if s.y1 + shift ≤ r.y0 ∨ s.y0 + shift ≥ r.y1 ∨ s.x1 ≤ r.x0 ∨ s.x0 ≥ r.x1 then shift
  else r.y1 - s.y0

/-- One scan step of `fit_rect` in the move-up direction: same skip test,
otherwise place the box just above the fixed one. -/
def fit_step_up (s : Rect) (shift : Int) (r : Rect) : Int :=
  if s.y1 + shift ≤ r.y0 ∨ s.y0 + shift ≥ r.y1 ∨ s.x1 ≤ r.x0 ∨ s.x0 ≥ r.x1 then shift
  else r.y0 - s.y1

/-- The comparator of `cmp_rect_y0` as a boolean order. -/
def rect_le (a b : Rect) : Bool := a.y0 ≤ b.y0

/-- The qsort by `cmp_rect_y0`. -/
def sort_rects (l : List Rect) : List Rect := l.mergeSort rect_le

/-- `fit_rect`: scan the y0-sorted fixed boxes in the preferred direction
(`dir == 1` moves down, anything else moves up, scanning in reverse),
compute the shift, then commit the shifted box and re-sort.  Returns the
shift and the new fixed-box list. -/
def fit_rect (s : Rect) (used : List Rect) (dir : Int) : Int × List Rect :=
  let shift := if dir = 1 then used.foldl (fit_step_down s) 0
               else used.reverse.foldl (fit_step_up s) 0
  let snew : Rect := { y0 := s.y0 + shift, y1 := s.y1 + shift, x0 := s.x0, x1 := s.x1 }
  (shift, sort_rects (used ++ [snew]))

/-- The zeroed render-priv written when a fixed event is demoted. -/
def zero_priv : RenderPriv := { top := 0, height := 0, left := 0, width := 0 }

/-- The priv after the height-change demotion test of the first pass of
`fix_collisions`. -/
def pass1_demote_height (e : EventImages) : RenderPriv :=
  if e.event_priv.height ≠ e.height then zero_priv else e.event_priv

/-- The priv after additionally demoting on overlap with an
already-committed box (the stored box `s` is captured before demotion). -/
def pass1_demote (e : EventImages) (used : List Rect) : RenderPriv :=
  if used.any fun u => rects_overlap (priv_rect e.event_priv) u then zero_priv
  else pass1_demote_height e

/-- First pass of `fix_collisions` for one event: a previously fixed event
keeps its stored box if its height is unchanged and it overlaps no
already-committed box (otherwise it is demoted to free by zeroing its
priv); a surviving fixed event commits its stored box and its images are
shifted back to the stored position. -/
def fix_pass1_step (frameHeight : Int) (e : EventImages) (used : List Rect) :
    EventImages × List Rect :=
  if ¬ e.detect_collisions ∨ e.height = 0 ∨ e.width = 0 then (e, used)
  else if e.event_priv.height > 0 then
    (if (pass1_demote e used).height > 0 then
      (shift_event frameHeight { e with event_priv := pass1_demote e used }
          ((pass1_demote e used).top - e.top),
        used ++ [priv_rect (pass1_demote e used)])
    else ({ e with event_priv := pass1_demote e used }, used))
  else (e, used)

/-- The first `for` loop of `fix_collisions` over all events of the group. -/
def fix_pass1 (frameHeight : Int) : List EventImages → List Rect →
    List EventImages × List Rect
  | [], used => ([], used)
  | e :: es, used =>
    let r1 := fix_pass1_step frameHeight e used
    let r2 := fix_pass1 frameHeight es r1.2
    (r1.1 :: r2.1, r2.2)

/-- The event after the conditional `shift_event` of the second pass
(`if (shift) shift_event(...)`). -/
def pass2_shifted (frameHeight : Int) (e : EventImages) (sh : Int) : EventImages :=
  if sh ≠ 0 then shift_event frameHeight e sh else e

/-- The `// make it fixed` update: store the event's current box in its
priv. -/
def pass2_make_fixed (e : EventImages) : EventImages :=
  { e with event_priv := { top := e.top, height := e.height, left := e.left, width := e.width } }

/-- Second pass of `fix_collisions` for one event: a free event is fitted
into the gaps via `fit_rect`, shifted if necessary, and becomes fixed. -/
def fix_pass2_step (frameHeight : Int) (e : EventImages) (used : List Rect) :
    EventImages × List Rect :=
  if ¬ e.detect_collisions ∨ e.height = 0 ∨ e.width = 0 then (e, used)
  else if e.event_priv.height = 0 then
    (pass2_make_fixed (pass2_shifted frameHeight e
        (fit_rect (imgs_rect e) used e.shift_direction).1),
      (fit_rect (imgs_rect e) used e.shift_direction).2)
  else (e, used)

/-- The second `for` loop of `fix_collisions`. -/
def fix_pass2 (frameHeight : Int) : List EventImages → List Rect →
    List EventImages × List Rect
  | [], used => ([], used)
  | e :: es, used =>
    let r1 := fix_pass2_step frameHeight e used
    let r2 := fix_pass2 frameHeight es r1.2
    (r1.1 :: r2.1, r2.2)

/-- `fix_collisions` over one layer group: commit surviving fixed events,
sort the committed boxes by y0, then fit the free events.  Returns the
updated events and the final committed-box list. -/
def fix_collisions (frameHeight : Int) (events : List EventImages) :
    List EventImages × List Rect :=
  let r1 := fix_pass1 frameHeight events []
  fix_pass2 frameHeight r1.1 (sort_rects r1.2)

/-- A box shifted vertically, as committed by `fit_rect`. -/
def shift_rect (s : Rect) (sh : Int) : Rect :=
  { y0 := s.y0 + sh, y1 := s.y1 + sh, x0 := s.x0, x1 := s.x1 }

lemma rects_overlap_eq_false_iff (s r : Rect) :
    rects_overlap s r = false ↔
      (s.y0 ≥ r.y1 ∨ r.y0 ≥ s.y1 ∨ s.x0 ≥ r.x1 ∨ r.x0 ≥ s.x1) := by
  unfold rects_overlap
  split_ifs with h
  · simp [h]
  · simp [h]

lemma rects_overlap_comm (s r : Rect) : rects_overlap s r = rects_overlap r s := by
  unfold rects_overlap
  split_ifs with h1 h2 <;> first | rfl | omega

lemma fit_fold_down_mono (s : Rect) (l : List Rect) :
    ∀ sh : Int, sh ≤ l.foldl (fit_step_down s) sh := by
  induction l with
  | nil => intro sh; simp
  | cons r rs ih =>
    intro sh
    rw [List.foldl_cons]
    refine le_trans ?_ (ih (fit_step_down s sh r))
    unfold fit_step_down
    split_ifs with h
    · exact le_refl sh
    · push_neg at h
      omega

lemma fit_fold_down_const (s : Rect) (l : List Rect) (sh : Int)
    (h : ∀ r ∈ l, s.y1 + sh ≤ r.y0) : l.foldl (fit_step_down s) sh = sh := by
  induction l with
  | nil => simp
  | cons r rs ih =>
    rw [List.foldl_cons]
    have hstep : fit_step_down s sh r = sh := by
      unfold fit_step_down
      rw [if_pos (Or.inl (h r (by simp)))]
    rw [hstep]
    exact ih fun b hb => h b (by simp [hb])

lemma fit_down_no_overlap (s : Rect) (l : List Rect) :
    ∀ sh : Int, l.Pairwise (fun a b => a.y0 ≤ b.y0) →
      ∀ r ∈ l, rects_overlap (shift_rect s (l.foldl (fit_step_down s) sh)) r = false := by
  induction l with
  | nil => intro sh _ r hr; simp at hr
  | cons r0 rs ih =>
    intro sh hsort r hr
    have hhead := (List.pairwise_cons.mp hsort).1
    have htail := (List.pairwise_cons.mp hsort).2
    rw [List.foldl_cons]
    rcases List.mem_cons.mp hr with rfl | hmem
    · -- the head box
      rw [rects_overlap_eq_false_iff]
      unfold shift_rect
      simp only
      by_cases hx : s.x1 ≤ r.x0 ∨ s.x0 ≥ r.x1
      · omega
      · by_cases hyb : s.y0 + sh ≥ r.y1
        · have hstep : fit_step_down s sh r = sh := by
            unfold fit_step_down
            rw [if_pos (Or.inr (Or.inl hyb))]
          rw [hstep]
          have := fit_fold_down_mono s rs sh
          omega
        · by_cases hya : s.y1 + sh ≤ r.y0
          · have hstep : fit_step_down s sh r = sh := by
              unfold fit_step_down
              rw [if_pos (Or.inl hya)]
            rw [hstep]
            have hconst : rs.foldl (fit_step_down s) sh = sh :=
              fit_fold_down_const s rs sh fun b hb => le_trans hya (hhead b hb)
            rw [hconst]
            omega
          · have hstep : fit_step_down s sh r = r.y1 - s.y0 := by
              unfold fit_step_down
              rw [if_neg (by push_neg; omega)]
            rw [hstep]
            have := fit_fold_down_mono s rs (r.y1 - s.y0)
            omega
    · exact ih (fit_step_down s sh r0) htail r hmem

lemma fit_fold_up_anti (s : Rect) (l : List Rect) :
    ∀ sh : Int, l.foldl (fit_step_up s) sh ≤ sh := by
  induction l with
  | nil => intro sh; simp
  | cons r rs ih =>
    intro sh
    rw [List.foldl_cons]
    refine le_trans (ih (fit_step_up s sh r)) ?_
    unfold fit_step_up
    split_ifs with h
    · exact le_refl sh
    · push_neg at h
      omega

lemma fit_fold_up_range (s : Rect) (l : List Rect) :
    ∀ sh : Int, l.foldl (fit_step_up s) sh = sh ∨
      ∃ r ∈ l, l.foldl (fit_step_up s) sh = r.y0 - s.y1 := by
  induction l with
  | nil => intro sh; simp
  | cons r rs ih =>
    intro sh
    rw [List.foldl_cons]
    by_cases h : s.y1 + sh ≤ r.y0 ∨ s.y0 + sh ≥ r.y1 ∨ s.x1 ≤ r.x0 ∨ s.x0 ≥ r.x1
    · have hstep : fit_step_up s sh r = sh := by
        unfold fit_step_up
        rw [if_pos h]
      rw [hstep]
      rcases ih sh with h1 | ⟨b, hb, hb2⟩
      · exact Or.inl h1
      · exact Or.inr ⟨b, by simp [hb], hb2⟩
    · have hstep : fit_step_up s sh r = r.y0 - s.y1 := by
        unfold fit_step_up
        rw [if_neg h]
      rw [hstep]
      rcases ih (r.y0 - s.y1) with h1 | ⟨b, hb, hb2⟩
      · exact Or.inr ⟨r, by simp, h1⟩
      · exact Or.inr ⟨b, by simp [hb], hb2⟩

lemma fit_up_no_overlap (s : Rect) (l : List Rect) :
    ∀ sh : Int, l.Pairwise (fun a b => b.y0 ≤ a.y0) →
      ∀ r ∈ l, rects_overlap (shift_rect s (l.foldl (fit_step_up s) sh)) r = false := by
  induction l with
  | nil => intro sh _ r hr; simp at hr
  | cons r0 rs ih =>
    intro sh hsort r hr
    have hhead := (List.pairwise_cons.mp hsort).1
    have htail := (List.pairwise_cons.mp hsort).2
    rw [List.foldl_cons]
    rcases List.mem_cons.mp hr with rfl | hmem
    · rw [rects_overlap_eq_false_iff]
      unfold shift_rect
      simp only
      by_cases hx : s.x1 ≤ r.x0 ∨ s.x0 ≥ r.x1
      · omega
      · by_cases hya : s.y1 + sh ≤ r.y0
        · have hstep : fit_step_up s sh r = sh := by
            unfold fit_step_up
            rw [if_pos (Or.inl hya)]
          rw [hstep]
          have := fit_fold_up_anti s rs sh
          omega
        · by_cases hyb : s.y0 + sh ≥ r.y1
          · have hstep : fit_step_up s sh r = sh := by
              unfold fit_step_up
              rw [if_pos (Or.inr (Or.inl hyb))]
            rw [hstep]
            rcases fit_fold_up_range s rs sh with h1 | ⟨b, hb, hb2⟩
            · rw [h1]
              omega
            · rw [hb2]
              have := hhead b hb
              omega
          · have hstep : fit_step_up s sh r = r.y0 - s.y1 := by
              unfold fit_step_up
              rw [if_neg (by push_neg; omega)]
            rw [hstep]
            have := fit_fold_up_anti s rs (r.y0 - s.y1)
            omega
    · exact ih (fit_step_up s sh r0) htail r hmem

lemma rect_le_total (a b : Rect) : rect_le a b || rect_le b a := by
  unfold rect_le
  by_cases h : a.y0 ≤ b.y0
  · simp [h]
  · simp only [Bool.or_eq_true, decide_eq_true_eq]
    omega

lemma rect_le_trans (a b c : Rect) : rect_le a b → rect_le b c → rect_le a c := by
  unfold rect_le
  simp only [decide_eq_true_eq]
  omega

lemma sort_rects_perm (l : List Rect) : (sort_rects l).Perm l :=
  List.mergeSort_perm l rect_le

lemma sort_rects_sorted (l : List Rect) :
    (sort_rects l).Pairwise fun a b => a.y0 ≤ b.y0 := by
  have h := List.sorted_mergeSort rect_le_trans rect_le_total l
  exact h.imp fun hab => by simpa [rect_le] using hab

/-- Disjointness of committed boxes, the pairwise relation of claim C4. -/
def no_overlap (a b : Rect) : Prop := rects_overlap a b = false

lemma no_overlap_symmetric : Symmetric no_overlap := by
  intro a b h
  unfold no_overlap at *
  rw [rects_overlap_comm]
  exact h

lemma sort_rects_pairwise (l : List Rect) (h : l.Pairwise no_overlap) :
    (sort_rects l).Pairwise no_overlap :=
  ((sort_rects_perm l).pairwise_iff fun hab => no_overlap_symmetric hab).mpr h

lemma fit_rect_no_overlap (s : Rect) (used : List Rect) (dir : Int)
    (hsort : used.Pairwise fun a b => a.y0 ≤ b.y0) :
    ∀ r ∈ used, rects_overlap (shift_rect s (fit_rect s used dir).1) r = false := by
  intro r hr
  unfold fit_rect
  by_cases hdir : dir = 1
  · simp only [if_pos hdir]
    exact fit_down_no_overlap s used 0 hsort r hr
  · simp only [if_neg hdir]
    refine fit_up_no_overlap s used.reverse 0 ?_ r (List.mem_reverse.mpr hr)
    exact (List.pairwise_reverse).mpr hsort

lemma fit_rect_snd (s : Rect) (used : List Rect) (dir : Int) :
    (fit_rect s used dir).2 = sort_rects (used ++ [shift_rect s (fit_rect s used dir).1]) := by
  unfold fit_rect shift_rect
  by_cases hdir : dir = 1 <;> simp [hdir]

lemma fix_pass1_step_used (fh : Int) (e : EventImages) (used : List Rect) :
    (fix_pass1_step fh e used).2 = used ∨
      ((fix_pass1_step fh e used).2 = used ++ [priv_rect e.event_priv] ∧
        ∀ u ∈ used, rects_overlap (priv_rect e.event_priv) u = false) := by
  unfold fix_pass1_step
  by_cases hg : ¬ e.detect_collisions ∨ e.height = 0 ∨ e.width = 0
  · rw [if_pos hg]
    exact Or.inl rfl
  · rw [if_neg hg]
    by_cases hfix : e.event_priv.height > 0
    · rw [if_pos hfix]
      by_cases hany : (used.any fun u => rects_overlap (priv_rect e.event_priv) u) = true
      · have hd : pass1_demote e used = zero_priv := by
          unfold pass1_demote
          rw [if_pos hany]
        rw [hd, if_neg (show ¬ (zero_priv.height > 0) by decide)]
        exact Or.inl rfl
      · have hanyf : (used.any fun u => rects_overlap (priv_rect e.event_priv) u) = false := by
          simpa using hany
        by_cases hmm : e.event_priv.height ≠ e.height
        · have hd : pass1_demote e used = zero_priv := by
            unfold pass1_demote pass1_demote_height
            rw [if_neg hany, if_pos hmm]
          rw [hd, if_neg (show ¬ (zero_priv.height > 0) by decide)]
          exact Or.inl rfl
        · have hd : pass1_demote e used = e.event_priv := by
            unfold pass1_demote pass1_demote_height
            rw [if_neg hany, if_neg hmm]
          rw [hd, if_pos hfix]
          refine Or.inr ⟨rfl, ?_⟩
          intro u hu
          have := List.any_eq_false.mp hanyf u hu
          simpa using this
    · rw [if_neg hfix]
      exact Or.inl rfl

lemma fix_pass1_step_pairwise (fh : Int) (e : EventImages) (used : List Rect)
    (h : used.Pairwise no_overlap) :
    (fix_pass1_step fh e used).2.Pairwise no_overlap := by
  rcases fix_pass1_step_used fh e used with heq | ⟨heq, hno⟩
  · rw [heq]; exact h
  · rw [heq, List.pairwise_append]
    refine ⟨h, by simp, ?_⟩
    intro a ha b hb
    simp only [List.mem_singleton] at hb
    subst hb
    unfold no_overlap
    rw [rects_overlap_comm]
    exact hno a ha

lemma fix_pass1_pairwise (fh : Int) (es : List EventImages) :
    ∀ used : List Rect, used.Pairwise no_overlap →
      (fix_pass1 fh es used).2.Pairwise no_overlap := by
  induction es with
  | nil => intro used h; exact h
  | cons e es ih =>
    intro used h
    exact ih _ (fix_pass1_step_pairwise fh e used h)

lemma fix_pass2_step_used (fh : Int) (e : EventImages) (used : List Rect) :
    (fix_pass2_step fh e used).2 = used ∨
      (fix_pass2_step fh e used).2 = (fit_rect (imgs_rect e) used e.shift_direction).2 := by
  unfold fix_pass2_step
  by_cases hg : ¬ e.detect_collisions ∨ e.height = 0 ∨ e.width = 0
  · rw [if_pos hg]
    exact Or.inl rfl
  · rw [if_neg hg]
    by_cases hfree : e.event_priv.height = 0
    · rw [if_pos hfree]
      exact Or.inr rfl
    · rw [if_neg hfree]
      exact Or.inl rfl

lemma fix_pass2_step_inv (fh : Int) (e : EventImages) (used : List Rect)
    (h : used.Pairwise no_overlap) (hs : used.Pairwise fun a b => a.y0 ≤ b.y0) :
    (fix_pass2_step fh e used).2.Pairwise no_overlap ∧
      (fix_pass2_step fh e used).2.Pairwise fun a b => a.y0 ≤ b.y0 := by
  rcases fix_pass2_step_used fh e used with heq | heq
  · rw [heq]; exact ⟨h, hs⟩
  · rw [heq, fit_rect_snd]
    have hnew := fit_rect_no_overlap (imgs_rect e) used e.shift_direction hs
    constructor
    · refine sort_rects_pairwise _ ?_
      rw [List.pairwise_append]
      refine ⟨h, by simp, ?_⟩
      intro a ha b hb
      simp only [List.mem_singleton] at hb
      subst hb
      unfold no_overlap
      rw [rects_overlap_comm]
      exact hnew a ha
    · exact sort_rects_sorted _

lemma fix_pass2_pairwise (fh : Int) (es : List EventImages) :
    ∀ used : List Rect, used.Pairwise no_overlap →
      (used.Pairwise fun a b => a.y0 ≤ b.y0) →
      (fix_pass2 fh es used).2.Pairwise no_overlap := by
  induction es with
  | nil => intro used h _; exact h
  | cons e es ih =>
    intro used h hs
    have hstep := fix_pass2_step_inv fh e used h hs
    exact ih _ hstep.1 hstep.2

/-- **C4.** After collision resolution of one layer group, no two committed
collision-detected boxes have positive-area overlap: the final fixed-box
list of `fix_collisions` is pairwise non-overlapping. -/
theorem fix_collisions_no_overlap (fh : Int) (events : List EventImages) :
    (fix_collisions fh events).2.Pairwise no_overlap := by
  unfold fix_collisions
  have h1 := fix_pass1_pairwise fh events [] (by simp)
  exact fix_pass2_pairwise fh _ _ (sort_rects_pairwise _ h1) (sort_rects_sorted _)

lemma fix_pass1_step_no_detect (fh : Int) (e : EventImages) (used : List Rect)
    (h : e.detect_collisions = false) : fix_pass1_step fh e used = (e, used) := by
  unfold fix_pass1_step
  rw [if_pos (Or.inl (by simp [h]))]

lemma fix_pass2_step_no_detect (fh : Int) (e : EventImages) (used : List Rect)
    (h : e.detect_collisions = false) : fix_pass2_step fh e used = (e, used) := by
  unfold fix_pass2_step
  rw [if_pos (Or.inl (by simp [h]))]

/-- The per-event relation of claim C8: a collision-disabled event is
returned unchanged (same images, same box, same stored priv). -/
def no_detect_unchanged (e e2 : EventImages) : Prop :=
  e.detect_collisions = false → e2 = e

lemma fix_pass1_forall2 (fh : Int) (es : List EventImages) :
    ∀ used : List Rect, List.Forall₂ no_detect_unchanged es (fix_pass1 fh es used).1 := by
  induction es with
  | nil => intro used; exact List.Forall₂.nil
  | cons e es ih =>
    intro used
    simp only [fix_pass1]
    refine List.Forall₂.cons ?_ (ih _)
    intro hdf
    rw [fix_pass1_step_no_detect fh e used hdf]

lemma fix_pass2_forall2 (fh : Int) (es : List EventImages) :
    ∀ used : List Rect, List.Forall₂ no_detect_unchanged es (fix_pass2 fh es used).1 := by
  induction es with
  | nil => intro used; exact List.Forall₂.nil
  | cons e es ih =>
    intro used
    simp only [fix_pass2]
    refine List.Forall₂.cons ?_ (ih _)
    intro hdf
    rw [fix_pass2_step_no_detect fh e used hdf]

/-- **C8.** An event whose collision-detection flag is disabled is never
shifted by `fix_collisions`: positionally, the output event equals the
input event (images, box and stored collision state all unchanged). -/
theorem fix_collisions_no_detect (fh : Int) (events : List EventImages) :
    List.Forall₂ no_detect_unchanged events (fix_collisions fh events).1 := by
  unfold fix_collisions
  have h1 := fix_pass1_forall2 fh events []
  have h2 := fix_pass2_forall2 fh (fix_pass1 fh events []).1
    (sort_rects (fix_pass1 fh events []).2)
  rw [List.forall₂_iff_get] at h1 h2 ⊢
  refine ⟨h1.1.trans h2.1, ?_⟩
  intro i hi1 hi2
  intro hdf
  have hmid : i < (fix_pass1 fh events []).1.length := h1.1 ▸ hi1
  have e1 := h1.2 i hi1 hmid hdf
  have hdf2 : ((fix_pass1 fh events []).1.get ⟨i, hmid⟩).detect_collisions = false := by
    rw [e1, hdf]
  have e2 := h2.2 i hmid hi2 hdf2
  rw [e2, e1]

/-- Closed witness for C8: a concrete collision-disabled event between two
enabled ones comes out of `fix_collisions` unchanged. -/
theorem fix_collisions_no_detect_witness :
    (fix_collisions 480
      [⟨[⟨10, 20, 4, 0⟩], 10, 20, 0, 100, true, 1, ⟨0, 0, 0, 0⟩⟩,
       ⟨[⟨12, 30, 4, 0⟩], 12, 30, 0, 100, false, 1, ⟨0, 0, 0, 0⟩⟩,
       ⟨[⟨15, 20, 4, 0⟩], 15, 20, 0, 100, true, 1, ⟨0, 0, 0, 0⟩⟩]).1.get
      ⟨1, by decide⟩ =
      ⟨[⟨12, 30, 4, 0⟩], 12, 30, 0, 100, false, 1, ⟨0, 0, 0, 0⟩⟩ := by
  have h := fix_collisions_no_detect 480
    [⟨[⟨10, 20, 4, 0⟩], 10, 20, 0, 100, true, 1, ⟨0, 0, 0, 0⟩⟩,
     ⟨[⟨12, 30, 4, 0⟩], 12, 30, 0, 100, false, 1, ⟨0, 0, 0, 0⟩⟩,
     ⟨[⟨15, 20, 4, 0⟩], 15, 20, 0, 100, true, 1, ⟨0, 0, 0, 0⟩⟩]
  rw [List.forall₂_iff_get] at h
  exact h.2 1 (by decide) (h.1 ▸ (by decide)) rfl

/-! ### Line-wrap balance pass (`wrap_lines_smart`, lines 1282-1336) -/

/-- A glyph as consumed by the rebalancing loop of `wrap_lines_smart`:
its symbol, line-break marker (0 none / 1 soft / 2 hard), horizontal
bounding box (in 1/64 pixel units) and pen x position. -/
structure WGlyph where
  symbol : Nat
  linebreak : Nat
  x_min : Int
  x_max : Int
  posx : Int
deriving DecidableEq, Repr

/-- The zeroed glyph used for the (unreachable in real runs) out-of-bounds
reads of the embedding. -/
def wglyph_default : WGlyph := { symbol := 0, linebreak := 0, x_min := 0, x_max := 0, posx := 0 }

/-- Read glyph `i` of the array. -/
def wget (g : List WGlyph) (i : Nat) : WGlyph := g.getD i wglyph_default

/-- Backwards pointer walk `while (w > s1 && p(*w)) --w;`
(structural recursion on `w`; the walk can only move left). -/
def walk_back (g : List WGlyph) (a : Nat) (p : WGlyph → Bool) : Nat → Nat
  | 0 => 0
  | w + 1 => if a < w + 1 ∧ p (wget g (w + 1)) then walk_back g a p w else w + 1

/-- Position after `do --w while (w > s1 && w->symbol == ' ');`
(skip the trailing spaces of the first line, starting just left of the
break `b`). -/
def bal_w1 (g : List WGlyph) (a b : Nat) : Nat :=
  walk_back g a (fun x => x.symbol == 32) (b - 1)

/-- Position after `while (w > s1 && w->symbol != ' ') --w;` (the space
before the last word of the first line, or the line start `a`). -/
def bal_w2 (g : List WGlyph) (a b : Nat) : Nat :=
  walk_back g a (fun x => !(x.symbol == 32)) (bal_w1 g a b)

/-- Position after `e1 = w; while (e1 > s1 && e1->symbol == ' ') --e1;`
(the new end of the first line). -/
def bal_e1 (g : List WGlyph) (a b : Nat) : Nat :=
  walk_back g a (fun x => x.symbol == 32) (bal_w2 g a b)

/-- `if (w->symbol == ' ') ++w;` — the start of the word to move. -/
def bal_w3 (g : List WGlyph) (a b : Nat) : Nat :=
  if (wget g (bal_w2 g a b)).symbol == 32 then bal_w2 g a b + 1 else bal_w2 g a b

/-- Current width of the first line of the pair (`l1`).  The source
compares `d6_to_double` values; division by the exact constant 64 is
strictly monotone and exact on these integers, so the comparison of the
integer widths is equivalent. -/
def bal_l1 (g : List WGlyph) (a b : Nat) : Int :=
  ((wget g (b - 1)).x_max + (wget g (b - 1)).posx) - ((wget g a).x_min + (wget g a).posx)

/-- Current width of the second line of the pair (`l2`). -/
def bal_l2 (g : List WGlyph) (b i : Nat) : Int :=
  ((wget g (i - 1)).x_max + (wget g (i - 1)).posx) - ((wget g b).x_min + (wget g b).posx)

/-- Width of the first line after the candidate move (`l1_new`). -/
def bal_l1_new (g : List WGlyph) (a b : Nat) : Int :=
  ((wget g (bal_e1 g a b)).x_max + (wget g (bal_e1 g a b)).posx) -
    ((wget g a).x_min + (wget g a).posx)

/-- Width of the second line after the candidate move (`l2_new`). -/
def bal_l2_new (g : List WGlyph) (a b i : Nat) : Int :=
  ((wget g (i - 1)).x_max + (wget g (i - 1)).posx) -
    ((wget g (bal_w3 g a b)).x_min + (wget g (bal_w3 g a b)).posx)

/-- The glyph array after `if (w != glyphs) w->linebreak = 1;`. -/
def balance_g1 (g : List WGlyph) (a b : Nat) : List WGlyph :=
  if bal_w3 g a b ≠ 0 then
    g.set (bal_w3 g a b) { wget g (bal_w3 g a b) with linebreak := 1 }
  else g

/-- The glyph array after additionally `s2->linebreak = 0;`. -/
def balance_moved (g : List WGlyph) (a b : Nat) : List WGlyph :=
  (balance_g1 g a b).set b { wget (balance_g1 g a b) b with linebreak := 0 }

/-- `if (w->linebreak || w == glyphs) n_lines--;` (evaluated before the
break is rewritten). -/
def balance_nl (g : List WGlyph) (nl : Int) (a b : Nat) : Int :=
  if (wget g (bal_w3 g a b)).linebreak ≠ 0 ∨ bal_w3 g a b = 0 then nl - 1 else nl

/-- The candidate move of the balance pass at line pair
(start `a`, soft break `b`, next break `i`): applied iff it strictly
decreases the absolute width difference of the pair.  Returns the new
glyphs, the new line count and whether the move was applied. -/
def balance_move (g : List WGlyph) (nl : Int) (a b i : Nat) : List WGlyph × Int × Bool :=
  if |bal_l1_new g a b - bal_l2_new g a b i| < |bal_l1 g a b - bal_l2 g b i| then
    (balance_moved g a b, balance_nl g nl a b, true)
  else (g, nl, false)

/-- State of one scan of the balance pass: glyphs, line count, the `exit`
flag, and the rolling break pointers `s2` (previous-previous break, null
at first) and `s3` (previous break; pointer `glyphs` initially, index 0). -/
structure PassState where
  g : List WGlyph
  nl : Int
  exitF : Bool
  s2 : Option Nat
  s3 : Nat
deriving Repr

/-- One iteration (index `i`) of the scan `for (i = 0; i <= length; ++i)`:
at a break (or one past the end), roll the break pointers and, if the
previous break is soft and at least two line starts are known, try the
balancing move. -/
def pass_step (n : Nat) (st : PassState) (i : Nat) : PassState :=
  if i = n ∨ (wget st.g i).linebreak ≠ 0 then
    match st.s2 with
    | some a =>
      if (wget st.g st.s3).linebreak = 1 then
        { g := (balance_move st.g st.nl a st.s3 i).1
          nl := (balance_move st.g st.nl a st.s3 i).2.1
          exitF := st.exitF && !(balance_move st.g st.nl a st.s3 i).2.2
          s2 := some st.s3
          s3 := i }
      else { st with s2 := some st.s3, s3 := i }
    | none => { st with s2 := some st.s3, s3 := i }
  else st

/-- One full pass of the rebalancing loop body (`exit = 1; for ...`). -/
def run_pass (g : List WGlyph) (nl : Int) : PassState :=
  (List.range (g.length + 1)).foldl (pass_step g.length) ⟨g, nl, true, none, 0⟩

/-- The rebalancing `while (!exit ...)` loop, fuelled; returns the final
glyphs, line count, number of executed passes, and whether the loop
finished (reached a pass that applied no move) within the fuel. -/
def wrap_balance_loop (n : Nat) : Nat → List WGlyph → Int → List WGlyph × Int × Nat × Bool
  | 0, g, nl => (g, nl, 0, false)
  | fuel + 1, g, nl =>
    let p := (List.range (n + 1)).foldl (pass_step n) ⟨g, nl, true, none, 0⟩
    if p.exitF then (p.g, p.nl, 1, true)
    else
      let rest := wrap_balance_loop n fuel p.g p.nl
      (rest.1, rest.2.1, rest.2.2.1 + 1, rest.2.2.2)

/-- Weighted sum of line-break positions (position + 1 for each break),
the termination measure of the rebalancing loop. -/
def wmeasure_from : List WGlyph → Nat → Nat
  | [], _ => 0
  | x :: xs, k => (if x.linebreak ≠ 0 then k + 1 else 0) + wmeasure_from xs (k + 1)

/-- The measure at offset 0. -/
def wmeasure (g : List WGlyph) : Nat := wmeasure_from g 0

/-- Number of soft-break markers, the bound stated by the spec. -/
def soft_break_count (g : List WGlyph) : Nat :=
  (g.filter fun x => x.linebreak == 1).length

lemma walk_back_le (g : List WGlyph) (a : Nat) (p : WGlyph → Bool) :
    ∀ w : Nat, walk_back g a p w ≤ w := by
  intro w
  induction w with
  | zero => simp [walk_back]
  | succ w ih =>
    unfold walk_back
    split_ifs with h
    · omega
    · exact le_refl _

lemma wget_set_ne (g : List WGlyph) (j i : Nat) (x : WGlyph) (h : j ≠ i) :
    wget (g.set j x) i = wget g i := by
  unfold wget
  rw [List.getD_eq_getElem?_getD, List.getD_eq_getElem?_getD, List.getElem?_set_ne h]

lemma wget_set_self (g : List WGlyph) (j : Nat) (x : WGlyph) (h : j < g.length) :
    wget (g.set j x) j = x := by
  unfold wget
  rw [List.getD_eq_getElem?_getD, List.getElem?_set_self h]
  rfl

lemma wget_oob (g : List WGlyph) (i : Nat) (h : g.length ≤ i) :
    wget g i = wglyph_default := by
  unfold wget
  rw [List.getD_eq_getElem?_getD, List.getElem?_eq_none (by omega)]
  rfl

lemma wget_lt_of_linebreak (g : List WGlyph) (i : Nat)
    (h : (wget g i).linebreak = 1) : i < g.length := by
  by_contra hge
  rw [wget_oob g i (by omega)] at h
  simp [wglyph_default] at h

lemma wmeasure_from_set (x : WGlyph) :
    ∀ (g : List WGlyph) (j k : Nat), j < g.length →
      wmeasure_from (g.set j x) k + (if (wget g j).linebreak ≠ 0 then k + j + 1 else 0) =
        wmeasure_from g k + (if x.linebreak ≠ 0 then k + j + 1 else 0) := by
  intro g
  induction g with
  | nil => intro j k h; simp at h
  | cons y ys ih =>
    intro j k h
    cases j with
    | zero =>
      have hw : wget (y :: ys) 0 = y := rfl
      simp only [List.set_cons_zero, wmeasure_from, hw, Nat.add_zero]
      omega
    | succ j =>
      have hw : wget (y :: ys) (j + 1) = wget ys j := rfl
      simp only [List.set_cons_succ, wmeasure_from, hw]
      have hih := ih j (k + 1) (by simpa using h)
      have hx : k + (j + 1) + 1 = k + 1 + j + 1 := by omega
      rw [hx]
      omega

lemma wmeasure_set (g : List WGlyph) (j : Nat) (x : WGlyph) (h : j < g.length) :
    wmeasure (g.set j x) + (if (wget g j).linebreak ≠ 0 then j + 1 else 0) =
      wmeasure g + (if x.linebreak ≠ 0 then j + 1 else 0) := by
  have := wmeasure_from_set x g j 0 h
  simpa [wmeasure] using this

lemma bal_w3_le (g : List WGlyph) (a b : Nat) (hb : 1 ≤ b) : bal_w3 g a b ≤ b := by
  have h1 : bal_w1 g a b ≤ b - 1 := walk_back_le g a _ (b - 1)
  have h2 : bal_w2 g a b ≤ bal_w1 g a b := walk_back_le g a _ _
  unfold bal_w3
  split_ifs <;> omega

lemma balance_moved_measure (g : List WGlyph) (a b : Nat)
    (hb1 : (wget g b).linebreak = 1) (hb : 1 ≤ b) :
    wmeasure (balance_moved g a b) < wmeasure g ∧
      wget (balance_moved g a b) 0 = wget g 0 ∧
      (balance_moved g a b).length = g.length := by
  have hblen : b < g.length := wget_lt_of_linebreak g b hb1
  have hw3b : bal_w3 g a b ≤ b := bal_w3_le g a b hb
  by_cases hz : bal_w3 g a b = 0
  · -- no new break marker is written; the break at b is removed
    have hg1 : balance_g1 g a b = g := by
      unfold balance_g1
      rw [if_neg (by omega)]
    have hmoved : balance_moved g a b = g.set b { wget g b with linebreak := 0 } := by
      unfold balance_moved
      rw [hg1]
    rw [hmoved]
    have hset := wmeasure_set g b { wget g b with linebreak := 0 } hblen
    rw [if_pos (by rw [hb1]; omega), if_neg (by simp)] at hset
    refine ⟨by omega, ?_, by simp⟩
    exact wget_set_ne g b 0 _ (by omega)
  · have hw3len : bal_w3 g a b < g.length := by omega
    by_cases heq : bal_w3 g a b = b
    · -- the moved-to position is the break itself: net removal
      have hg1 : balance_g1 g a b = g.set b { wget g b with linebreak := 1 } := by
        unfold balance_g1
        rw [if_pos hz, heq]
      have hget1 : wget (g.set b { wget g b with linebreak := 1 }) b =
          { wget g b with linebreak := 1 } := wget_set_self g b _ hblen
      have hmoved : balance_moved g a b =
          (g.set b { wget g b with linebreak := 1 }).set b
            { { wget g b with linebreak := 1 } with linebreak := 0 } := by
        unfold balance_moved
        rw [hg1, hget1]
      rw [hmoved]
      have hset1 := wmeasure_set g b { wget g b with linebreak := 1 } hblen
      rw [if_pos (by rw [hb1]; omega), if_pos (by simp)] at hset1
      have hset2 := wmeasure_set (g.set b { wget g b with linebreak := 1 }) b
        { { wget g b with linebreak := 1 } with linebreak := 0 } (by simpa using hblen)
      rw [hget1, if_pos (by simp), if_neg (by simp)] at hset2
      refine ⟨by omega, ?_, by simp⟩
      rw [wget_set_ne _ b 0 _ (by omega), wget_set_ne g b 0 _ (by omega)]
    · -- the break moves strictly left
      have hw3ltb : bal_w3 g a b < b := by omega
      have hg1 : balance_g1 g a b =
          g.set (bal_w3 g a b) { wget g (bal_w3 g a b) with linebreak := 1 } := by
        unfold balance_g1
        rw [if_pos hz]
      have hget1 : wget (g.set (bal_w3 g a b)
            { wget g (bal_w3 g a b) with linebreak := 1 }) b = wget g b :=
        wget_set_ne g _ b _ (by omega)
      have hmoved : balance_moved g a b =
          (g.set (bal_w3 g a b) { wget g (bal_w3 g a b) with linebreak := 1 }).set b
            { wget g b with linebreak := 0 } := by
        unfold balance_moved
        rw [hg1, hget1]
      rw [hmoved]
      have hset1 := wmeasure_set g (bal_w3 g a b)
        { wget g (bal_w3 g a b) with linebreak := 1 } hw3len
      have hR : (if ({ wget g (bal_w3 g a b) with linebreak := 1 } : WGlyph).linebreak ≠ 0
          then bal_w3 g a b + 1 else 0) = bal_w3 g a b + 1 := if_pos (by simp)
      rw [hR] at hset1
      have hset2 := wmeasure_set (g.set (bal_w3 g a b)
          { wget g (bal_w3 g a b) with linebreak := 1 }) b
        { wget g b with linebreak := 0 } (by simpa using hblen)
      rw [hget1, if_pos (by rw [hb1]; omega), if_neg (by simp)] at hset2
      refine ⟨?_, ?_, by simp⟩
      · split_ifs at hset1 <;> omega
      · rw [wget_set_ne _ b 0 _ (by omega), wget_set_ne g _ 0 _ (by omega)]

lemma balance_move_cases (g : List WGlyph) (nl : Int) (a b i : Nat) :
    balance_move g nl a b i = (g, nl, false) ∨
      (balance_move g nl a b i =
        (balance_moved g a b, balance_nl g nl a b, true) ∧
       |bal_l1_new g a b - bal_l2_new g a b i| < |bal_l1 g a b - bal_l2 g b i|) := by
  unfold balance_move
  split_ifs with h
  · exact Or.inr ⟨rfl, h⟩
  · exact Or.inl rfl

lemma pass_step_spec (n : Nat) (st : PassState) (i : Nat)
    (h0 : (wget st.g 0).linebreak ≠ 1) :
    (wget (pass_step n st i).g 0).linebreak ≠ 1 ∧
    (pass_step n st i).g.length = st.g.length ∧
    wmeasure (pass_step n st i).g ≤ wmeasure st.g ∧
    ((pass_step n st i).exitF = true → (pass_step n st i).g = st.g ∧
      (pass_step n st i).nl = st.nl ∧ st.exitF = true) ∧
    (st.exitF = true → (pass_step n st i).exitF = false →
      wmeasure (pass_step n st i).g < wmeasure st.g) := by
  unfold pass_step
  by_cases hbr : i = n ∨ (wget st.g i).linebreak ≠ 0
  · rw [if_pos hbr]
    rcases hs2 : st.s2 with _ | a
    · exact ⟨h0, rfl, le_refl _, fun h => ⟨rfl, rfl, h⟩,
        fun h1 h2 => by rw [h1] at h2; simp at h2⟩
    · dsimp only
      by_cases hlb : (wget st.g st.s3).linebreak = 1
      · rw [if_pos hlb]
        rcases balance_move_cases st.g st.nl a st.s3 i with hc | ⟨hc, _⟩
        · rw [hc]
          refine ⟨h0, rfl, le_refl _, ?_, ?_⟩
          · intro h
            simp only [Bool.not_false, Bool.and_true] at h
            exact ⟨rfl, rfl, h⟩
          · intro h1 h2
            simp only [Bool.not_false, Bool.and_true] at h2
            rw [h1] at h2
            simp at h2
        · rw [hc]
          have hbge : 1 ≤ st.s3 := by
            rcases Nat.eq_zero_or_pos st.s3 with h00 | h00
            · rw [h00] at hlb
              exact absurd hlb h0
            · omega
          have hm := balance_moved_measure st.g a st.s3 hlb hbge
          refine ⟨?_, hm.2.2, le_of_lt hm.1, ?_, ?_⟩
          · rw [hm.2.1]
            exact h0
          · intro h
            simp only [Bool.not_true, Bool.and_false] at h
            exact absurd h Bool.false_ne_true
          · intro _ _
            exact hm.1
      · rw [if_neg hlb]
        exact ⟨h0, rfl, le_refl _, fun h => ⟨rfl, rfl, h⟩,
          fun h1 h2 => by rw [h1] at h2; simp at h2⟩
  · rw [if_neg hbr]
    exact ⟨h0, rfl, le_refl _, fun h => ⟨rfl, rfl, h⟩,
      fun h1 h2 => by rw [h1] at h2; simp at h2⟩

lemma pass_fold_spec (n : Nat) (idx : List Nat) :
    ∀ st : PassState, (wget st.g 0).linebreak ≠ 1 →
      (wget (idx.foldl (pass_step n) st).g 0).linebreak ≠ 1 ∧
      (idx.foldl (pass_step n) st).g.length = st.g.length ∧
      wmeasure (idx.foldl (pass_step n) st).g ≤ wmeasure st.g ∧
      ((idx.foldl (pass_step n) st).exitF = true →
        (idx.foldl (pass_step n) st).g = st.g ∧
        (idx.foldl (pass_step n) st).nl = st.nl ∧ st.exitF = true) ∧
      (st.exitF = true → (idx.foldl (pass_step n) st).exitF = false →
        wmeasure (idx.foldl (pass_step n) st).g < wmeasure st.g) := by
  induction idx with
  | nil =>
    intro st h0
    refine ⟨h0, rfl, le_refl _, fun h => ⟨rfl, rfl, ?_⟩, fun h1 h2 => ?_⟩
    · simpa using h
    · rw [List.foldl_nil, h1] at h2
      simp at h2
  | cons i idx ih =>
    intro st h0
    rw [List.foldl_cons]
    have hstep := pass_step_spec n st i h0
    have hrest := ih (pass_step n st i) hstep.1
    refine ⟨hrest.1, hrest.2.1.trans hstep.2.1, hrest.2.2.1.trans hstep.2.2.1, ?_, ?_⟩
    · intro h
      obtain ⟨hg2, hnl2, hex2⟩ := hrest.2.2.2.1 h
      obtain ⟨hg1, hnl1, hex1⟩ := hstep.2.2.2.1 hex2
      exact ⟨hg2.trans hg1, hnl2.trans hnl1, hex1⟩
    · intro h1 h2
      rcases Bool.eq_false_or_eq_true (pass_step n st i).exitF with hmid | hmid
      · have := hrest.2.2.2.2 hmid h2
        exact lt_of_lt_of_le this hstep.2.2.1
      · have := hstep.2.2.2.2 h1 hmid
        exact lt_of_le_of_lt hrest.2.2.1 this

lemma wrap_balance_loop_finishes (n : Nat) :
    ∀ (fuel : Nat) (g : List WGlyph) (nl : Int),
      (wget g 0).linebreak ≠ 1 → wmeasure g < fuel →
      (wrap_balance_loop n fuel g nl).2.2.2 = true ∧
      (wrap_balance_loop n fuel g nl).2.2.1 ≤ wmeasure g + 1 := by
  intro fuel
  induction fuel with
  | zero => intro g nl _ h; omega
  | succ f ih =>
    intro g nl h0 hfuel
    have hp := pass_fold_spec n (List.range (n + 1)) ⟨g, nl, true, none, 0⟩ h0
    dsimp only at hp
    simp only [wrap_balance_loop]
    rcases Bool.eq_false_or_eq_true
        ((List.range (n + 1)).foldl (pass_step n) ⟨g, nl, true, none, 0⟩).exitF with hex | hex
    · rw [if_pos hex]
      refine ⟨rfl, ?_⟩
      dsimp only
      omega
    · have hlt := hp.2.2.2.2 rfl hex
      have hrec := ih ((List.range (n + 1)).foldl (pass_step n) ⟨g, nl, true, none, 0⟩).g
        ((List.range (n + 1)).foldl (pass_step n) ⟨g, nl, true, none, 0⟩).nl hp.1 (by omega)
      rw [if_neg (by rw [hex]; simp)]
      refine ⟨hrec.1, ?_⟩
      have := hrec.2
      dsimp only
      omega

/-- **C5 (amended).** For glyph sequences whose first glyph carries no
soft-break marker (as produced by the initial wrap, which only writes break
markers at positions ≥ 1), the rebalancing loop of `wrap_lines_smart`
terminates: with fuel `wmeasure g + 1` the loop reaches a pass that applies
no move, and the number of executed passes is at most `wmeasure g + 1`
(the weighted sum of break positions, not the number of soft breaks);
every applied move strictly decreases the absolute width difference
computed for the affected line pair, a rejected move leaves the state
unchanged, and a pass that ends with `exit` still set has changed nothing
(the loop exits exactly when no move improves balance). -/
theorem wrap_balance_termination (g : List WGlyph) (nl : Int)
    (h0 : (wget g 0).linebreak ≠ 1) :
    ((wrap_balance_loop g.length (wmeasure g + 1) g nl).2.2.2 = true ∧
      (wrap_balance_loop g.length (wmeasure g + 1) g nl).2.2.1 ≤ wmeasure g + 1) ∧
    (∀ (g2 : List WGlyph) (nl2 : Int) (a b i : Nat),
      (balance_move g2 nl2 a b i).2.2 = true →
        |bal_l1_new g2 a b - bal_l2_new g2 a b i| < |bal_l1 g2 a b - bal_l2 g2 b i|) ∧
    (∀ (g2 : List WGlyph) (nl2 : Int) (a b i : Nat),
      (balance_move g2 nl2 a b i).2.2 = false →
        balance_move g2 nl2 a b i = (g2, nl2, false)) ∧
    ((run_pass g nl).exitF = true → (run_pass g nl).g = g ∧ (run_pass g nl).nl = nl) := by
  have hterm := wrap_balance_loop_finishes g.length (wmeasure g + 1) g nl h0 (by omega)
  refine ⟨⟨hterm.1, hterm.2⟩, ?_, ?_, ?_⟩
  · intro g2 nl2 a b i hmv
    rcases balance_move_cases g2 nl2 a b i with hc | ⟨_, hlt⟩
    · rw [hc] at hmv
      simp at hmv
    · exact hlt
  · intro g2 nl2 a b i hmv
    rcases balance_move_cases g2 nl2 a b i with hc | ⟨hc, _⟩
    · exact hc
    · rw [hc] at hmv
      simp at hmv
  · intro hex
    have hp := pass_fold_spec g.length (List.range (g.length + 1)) ⟨g, nl, true, none, 0⟩ h0
    dsimp only at hp
    unfold run_pass at hex ⊢
    exact ⟨(hp.2.2.2.1 hex).1, (hp.2.2.2.1 hex).2.1⟩

/-- Closed witness for C5: the amended theorem applied to the empty glyph
sequence. -/
theorem wrap_balance_termination_witness :
    ((wrap_balance_loop ([] : List WGlyph).length (wmeasure ([] : List WGlyph) + 1) [] 5).2.2.2
        = true ∧
      (wrap_balance_loop ([] : List WGlyph).length
          (wmeasure ([] : List WGlyph) + 1) [] 5).2.2.1
        ≤ wmeasure ([] : List WGlyph) + 1) ∧
    (∀ (g2 : List WGlyph) (nl2 : Int) (a b i : Nat),
      (balance_move g2 nl2 a b i).2.2 = true →
        |bal_l1_new g2 a b - bal_l2_new g2 a b i| < |bal_l1 g2 a b - bal_l2 g2 b i|) ∧
    (∀ (g2 : List WGlyph) (nl2 : Int) (a b i : Nat),
      (balance_move g2 nl2 a b i).2.2 = false →
        balance_move g2 nl2 a b i = (g2, nl2, false)) ∧
    ((run_pass ([] : List WGlyph) 5).exitF = true →
      (run_pass ([] : List WGlyph) 5).g = [] ∧ (run_pass ([] : List WGlyph) 5).nl = 5) :=
  wrap_balance_termination [] 5 (by decide)

/-- A single-soft-break glyph sequence on which the balance loop needs four
passes (three of them applying a move): eight letter glyphs interleaved
with spaces, the soft break far right of the balance point. -/
def balance_cex : List WGlyph :=
  (List.range 16).map fun j =>
    { symbol := if j % 2 = 0 then 65 else 32
      linebreak := if j = 14 then 1 else 0
      x_min := 0
      x_max := 80
      posx := 100 * (j : Int) }

/-- Counterexample for C5 as stated: on `balance_cex` (one soft break) the
rebalancing loop runs 4 passes (3 of them applying moves) before reaching
the no-improvement pass, so the number of passes is not bounded by the
number of soft breaks (not even by that number plus one). -/
theorem wrap_balance_pass_bound_cex :
    (wrap_balance_loop 16 16 balance_cex 2).2.2.2 = true ∧
    (wrap_balance_loop 16 16 balance_cex 2).2.2.1 = 4 ∧
    soft_break_count balance_cex = 1 ∧
    ¬ ((wrap_balance_loop 16 16 balance_cex 2).2.2.1 ≤ soft_break_count balance_cex + 1) := by
  decide

/-! ### Transform quantizer (`quantize_transform`, `restore_transform`)

The source works in C `double`; the embedding uses exact rational
arithmetic (all operations involved are field operations, `fabs`,
comparisons and rounding).  `lrint` rounds half-to-even under the default
rounding mode; the embedding uses `round` (half-up).  The two differ only
at exact ties, which affects neither the failure condition (checked before
rounding) nor any error bound of the form |x - round x| ≤ 1/2. -/

/-- `#define POSITION_PRECISION 8.0` (transform error budget, 1/64 px). -/
def POSITION_PRECISION : ℚ := 8

/-- `#define MAX_PERSP_SCALE 16.0`. -/
def MAX_PERSP_SCALE : ℚ := 16

/-- `const double max_val = 1000000;` — the representable-range bound. -/
def max_val : ℚ := 1000000

/-- Integer outline bounding box (`ASS_Rect`), in 1/64 pixel units. -/
structure ASS_Rect where
  x_min : Int
  y_min : Int
  x_max : Int
  y_max : Int
deriving DecidableEq, Repr

/-- A 3×3 row-major projective transform (`double m[3][3]`):
`x_out = (m00 x + m01 y + m02)/z`, `y_out = (m10 x + m11 y + m12)/z`,
`z = m20 x + m21 y + m22`. -/
structure Transform where
  m00 : ℚ
  m01 : ℚ
  m02 : ℚ
  m10 : ℚ
  m11 : ℚ
  m12 : ℚ
  m20 : ℚ
  m21 : ℚ
  m22 : ℚ
deriving DecidableEq, Repr

/-- Center x of the bounding box (`x0`). -/
def bb_x0 (b : ASS_Rect) : ℚ := (b.x_min + b.x_max) / 2

/-- Center y of the bounding box (`y0`). -/
def bb_y0 (b : ASS_Rect) : ℚ := (b.y_min + b.y_max) / 2

/-- Half-extent x plus one pixel (`dx`). -/
def bb_dx (b : ASS_Rect) : ℚ := (b.x_max - b.x_min) / 2 + 64

/-- Half-extent y plus one pixel (`dy`). -/
def bb_dy (b : ASS_Rect) : ℚ := (b.y_max - b.y_min) / 2 + 64

/-- The transform after moving the input origin to the bounding-box center
(`m[i][2] += m[i][0] * x0 + m[i][1] * y0`). -/
def recenter_input (m : Transform) (b : ASS_Rect) : Transform :=
  { m with
    m02 := m.m02 + m.m00 * bb_x0 b + m.m01 * bb_y0 b
    m12 := m.m12 + m.m10 * bb_x0 b + m.m11 * bb_y0 b
    m22 := m.m22 + m.m20 * bb_x0 b + m.m21 * bb_y0 b }

/-- Transformed center of the bounding box, x coordinate
(`center[0] = m[0][2] * w`, `w = 1 / m[2][2]`). -/
def center_x (m : Transform) (b : ASS_Rect) : ℚ :=
  (recenter_input m b).m02 / (recenter_input m b).m22

/-- Transformed center of the bounding box, y coordinate. -/
def center_y (m : Transform) (b : ASS_Rect) : ℚ :=
  (recenter_input m b).m12 / (recenter_input m b).m22

/-- Affine coefficients after moving the output origin to the transformed
center (`m[i][j] -= m[2][j] * center[i]`, i,j < 2). -/
def aff00 (m : Transform) (b : ASS_Rect) : ℚ := m.m00 - m.m20 * center_x m b

/-- See `aff00`. -/
def aff01 (m : Transform) (b : ASS_Rect) : ℚ := m.m01 - m.m21 * center_x m b

/-- See `aff00`. -/
def aff10 (m : Transform) (b : ASS_Rect) : ℚ := m.m10 - m.m20 * center_y m b

/-- See `aff00`. -/
def aff11 (m : Transform) (b : ASS_Rect) : ℚ := m.m11 - m.m21 * center_y m b

/-- The center position in 1/8-pixel units minus the run's stored subpixel
offset (`center[i] /= 64 >> SUBPIXEL_ORDER; center[i] -= delta[i]`):
the first quantized quantity. -/
def qc_x (m : Transform) (b : ASS_Rect) (first : Bool) (offx : ℚ) : ℚ :=
  center_x m b / 8 - (if first then 0 else offx)

/-- See `qc_x`. -/
def qc_y (m : Transform) (b : ASS_Rect) (first : Bool) (offy : ℚ) : ℚ :=
  center_y m b / 8 - (if first then 0 else offy)

/-- Quantized center position (`qr[i] = lrint(center[i])`). -/
def qr_x (m : Transform) (b : ASS_Rect) (first : Bool) (offx : ℚ) : Int :=
  round (qc_x m b first offx)

/-- See `qr_x`. -/
def qr_y (m : Transform) (b : ASS_Rect) (first : Bool) (offy : ℚ) : Int :=
  round (qc_y m b first offy)

/-- Minimal bounding-box z coordinate
(`z0 = m[2][2] - fabs(m[2][0]) * dx - fabs(m[2][1]) * dy`). -/
def bb_z0 (m : Transform) (b : ASS_Rect) : ℚ :=
  (recenter_input m b).m22 - |m.m20| * bb_dx b - |m.m21| * bb_dy b

/-- `FFMAX(z0, m[2][2] / MAX_PERSP_SCALE)` — the clamped z-scale used to
size the quantization steps. -/
def bb_zclamp (m : Transform) (b : ASS_Rect) : ℚ :=
  max (bb_z0 m b) ((recenter_input m b).m22 / MAX_PERSP_SCALE)

/-- `mul[0] = dx * w` with `w = 1 / POSITION_PRECISION / FFMAX(...)`. -/
def mul_x (m : Transform) (b : ASS_Rect) : ℚ :=
  bb_dx b / (POSITION_PRECISION * bb_zclamp m b)

/-- See `mul_x`. -/
def mul_y (m : Transform) (b : ASS_Rect) : ℚ :=
  bb_dy b / (POSITION_PRECISION * bb_zclamp m b)

/-- The four quantized affine quantities (`val = m[i][j] * mul[j]`). -/
def va00 (m : Transform) (b : ASS_Rect) : ℚ := aff00 m b * mul_x m b

/-- See `va00`. -/
def va01 (m : Transform) (b : ASS_Rect) : ℚ := aff01 m b * mul_y m b

/-- See `va00`. -/
def va10 (m : Transform) (b : ASS_Rect) : ℚ := aff10 m b * mul_x m b

/-- See `va00`. -/
def va11 (m : Transform) (b : ASS_Rect) : ℚ := aff11 m b * mul_y m b

/-- `qm[i][j] = lrint(val)`. -/
def qm00 (m : Transform) (b : ASS_Rect) : Int := round (va00 m b)

/-- See `qm00`. -/
def qm01 (m : Transform) (b : ASS_Rect) : Int := round (va01 m b)

/-- See `qm00`. -/
def qm10 (m : Transform) (b : ASS_Rect) : Int := round (va10 m b)

/-- See `qm00`. -/
def qm11 (m : Transform) (b : ASS_Rect) : Int := round (va11 m b)

/-- `qmx = abs(qm[0][0]) + abs(qm[0][1])`. -/
def qmx (m : Transform) (b : ASS_Rect) : Int := |qm00 m b| + |qm01 m b|

/-- `qmy = abs(qm[1][0]) + abs(qm[1][1])`. -/
def qmy (m : Transform) (b : ASS_Rect) : Int := |qm10 m b| + |qm11 m b|

/-- `w = POSITION_PRECISION * FFMAX(qmx, qmy)`, the scale applied to the
perspective row's quantization steps. -/
def persp_w (m : Transform) (b : ASS_Rect) : ℚ :=
  POSITION_PRECISION * ((max (qmx m b) (qmy m b) : Int) : ℚ)

/-- The two quantized perspective quantities (`val = m[2][j] * mul[j]`
after `mul[j] *= w`). -/
def vz0 (m : Transform) (b : ASS_Rect) : ℚ := m.m20 * (mul_x m b * persp_w m b)

/-- See `vz0`. -/
def vz1 (m : Transform) (b : ASS_Rect) : ℚ := m.m21 * (mul_y m b * persp_w m b)

/-- `qm[2][j] = lrint(val)`. -/
def qz0 (m : Transform) (b : ASS_Rect) : Int := round (vz0 m b)

/-- See `qz0`. -/
def qz1 (m : Transform) (b : ASS_Rect) : Int := round (vz1 m b)

/-- The quantized part of a `BitmapHashKey`: subpixel offset and the six
quantized matrix coefficients. -/
structure BitmapHashKey where
  offx : Int
  offy : Int
  mxx : Int
  mxy : Int
  myx : Int
  myy : Int
  mzx : Int
  mzy : Int
deriving DecidableEq, Repr

/-- Everything `quantize_transform` writes on success: the key, the integer
pixel position, and the (possibly updated) run subpixel offset. -/
structure QuantizeResult where
  key : BitmapHashKey
  pos_x : Int
  pos_y : Int
  off_out_x : ℚ
  off_out_y : ℚ
deriving DecidableEq, Repr

/-- The outputs `quantize_transform` fills on success: position split into
whole pixels (`qr >> SUBPIXEL_ORDER`, arithmetic shift = floor division)
and subpixel offset (`qr & 7`, the nonnegative remainder), the six
quantized coefficients, and the stored offset update for the run's first
glyph. -/
def quantize_success (m : Transform) (first : Bool) (off : ℚ × ℚ) (b : ASS_Rect) :
    QuantizeResult :=
  { key :=
      { offx := qr_x m b first off.1 % 8
        offy := qr_y m b first off.2 % 8
        mxx := qm00 m b
        mxy := qm01 m b
        myx := qm10 m b
        myy := qm11 m b
        mzx := qz0 m b
        mzy := qz1 m b }
    pos_x := Int.fdiv (qr_x m b first off.1) 8
    pos_y := Int.fdiv (qr_y m b first off.2) 8
    off_out_x := if first then qc_x m b first off.1 - qr_x m b first off.1 else off.1
    off_out_y := if first then qc_y m b first off.2 - qr_y m b first off.2 else off.2 }

/-- `quantize_transform`: the early-return ladder of the source, with each
guard `if (!(fabs(val) < max_val)) return false;` in source order. -/
def quantize_transform (m : Transform) (first : Bool) (off : ℚ × ℚ) (b : ASS_Rect) :
    Option QuantizeResult :=
  if (recenter_input m b).m22 ≤ 0 then none
  else if ¬ (|qc_x m b first off.1| < max_val) then none
  else if ¬ (|qc_y m b first off.2| < max_val) then none
  else if ¬ (|va00 m b| < max_val) then none
  else if ¬ (|va01 m b| < max_val) then none
  else if ¬ (|va10 m b| < max_val) then none
  else if ¬ (|va11 m b| < max_val) then none
  else if ¬ (|vz0 m b| < max_val) then none
  else if ¬ (|vz1 m b| < max_val) then none
  else some (quantize_success m first off b)

/-- The failure condition as the claim states it: the recentered z-scale at
the center is non-positive, or some quantized quantity (center position
coordinate, affine coefficient, or perspective-row coefficient) has
absolute value not below the representable bound. -/
def quantize_fail_cond (m : Transform) (first : Bool) (off : ℚ × ℚ) (b : ASS_Rect) : Prop :=
  (recenter_input m b).m22 ≤ 0 ∨
    ¬ (|qc_x m b first off.1| < max_val) ∨ ¬ (|qc_y m b first off.2| < max_val) ∨
    ¬ (|va00 m b| < max_val) ∨ ¬ (|va01 m b| < max_val) ∨
    ¬ (|va10 m b| < max_val) ∨ ¬ (|va11 m b| < max_val) ∨
    ¬ (|vz0 m b| < max_val) ∨ ¬ (|vz1 m b| < max_val)

instance (m : Transform) (first : Bool) (off : ℚ × ℚ) (b : ASS_Rect) :
    Decidable (quantize_fail_cond m first off b) := by
  unfold quantize_fail_cond
  infer_instance

/-- **C1.** `quantize_transform` fails exactly when, after recentering
about the bounding-box center, the z-scale at the center is non-positive
or some quantized quantity has absolute value not below 10^6; on success
it fills the key and the position (and, for a run's first glyph, the
stored subpixel offset). -/
theorem quantize_transform_failure_iff (m : Transform) (first : Bool) (off : ℚ × ℚ)
    (b : ASS_Rect) :
    (quantize_transform m first off b = none ↔ quantize_fail_cond m first off b) ∧
    quantize_transform m first off b =
      (if quantize_fail_cond m first off b then none
       else some (quantize_success m first off b)) := by
  have h : quantize_transform m first off b =
      (if quantize_fail_cond m first off b then none
       else some (quantize_success m first off b)) := by
    unfold quantize_transform quantize_fail_cond
    by_cases h1 : (recenter_input m b).m22 ≤ 0
    · rw [if_pos h1, if_pos (Or.inl h1)]
    rw [if_neg h1]
    by_cases h2 : |qc_x m b first off.1| < max_val
    case neg => rw [if_pos h2, if_pos (Or.inr (Or.inl h2))]
    rw [if_neg (not_not_intro h2)]
    by_cases h3 : |qc_y m b first off.2| < max_val
    case neg => rw [if_pos h3, if_pos (Or.inr (Or.inr (Or.inl h3)))]
    rw [if_neg (not_not_intro h3)]
    by_cases h4 : |va00 m b| < max_val
    case neg => rw [if_pos h4, if_pos (Or.inr (Or.inr (Or.inr (Or.inl h4))))]
    rw [if_neg (not_not_intro h4)]
    by_cases h5 : |va01 m b| < max_val
    case neg => rw [if_pos h5, if_pos (Or.inr (Or.inr (Or.inr (Or.inr (Or.inl h5)))))]
    rw [if_neg (not_not_intro h5)]
    by_cases h6 : |va10 m b| < max_val
    case neg =>
      rw [if_pos h6, if_pos (Or.inr (Or.inr (Or.inr (Or.inr (Or.inr (Or.inl h6))))))]
    rw [if_neg (not_not_intro h6)]
    by_cases h7 : |va11 m b| < max_val
    case neg =>
      rw [if_pos h7,
        if_pos (Or.inr (Or.inr (Or.inr (Or.inr (Or.inr (Or.inr (Or.inl h7)))))))]
    rw [if_neg (not_not_intro h7)]
    by_cases h8 : |vz0 m b| < max_val
    case neg =>
      rw [if_pos h8,
        if_pos (Or.inr (Or.inr (Or.inr (Or.inr (Or.inr (Or.inr (Or.inr (Or.inl h8))))))))]
    rw [if_neg (not_not_intro h8)]
    by_cases h9 : |vz1 m b| < max_val
    case neg =>
      rw [if_pos h9,
        if_pos (Or.inr (Or.inr (Or.inr (Or.inr (Or.inr (Or.inr (Or.inr (Or.inr h9))))))))]
    rw [if_neg (not_not_intro h9)]
    rw [if_neg (by
      rintro (h | h | h | h | h | h | h | h | h)
      exacts [h1 h, h h2, h h3, h h4, h h5, h h6, h h7, h h8, h h9])]
  refine ⟨?_, h⟩
  rw [h]
  split_ifs with hc
  · simp [hc]
  · simp [hc]

/-! ### Blur quantization (`quantize_blur`, `restore_blur`)

The source calls `frexp`, `log1p` and `expm1`; the embedding uses `ℝ` with
`Int.log 2` for the frexp exponent (`frexp(x) = floor(log2 x) + 1` for
`x > 0`) and `round` for `lrint` (see the note on ties above). -/

/-- `#define BLUR_PRECISION (1.0 / 256)`. -/
noncomputable def BLUR_PRECISION : ℝ := 1 / 256

/-- `const double scale = 64 * BLUR_PRECISION / POSITION_PRECISION;`. -/
noncomputable def blur_scale : ℝ := 64 * BLUR_PRECISION / (POSITION_PRECISION : ℝ)

/-- The frexp exponent `ord` of `(1 + radius * scale) * (POSITION_PRECISION / 2)`:
`ord = floor(log2(...)) + 1`. -/
noncomputable def blur_ord (radius : ℝ) : Int :=
  Int.log 2 ((1 + radius * blur_scale) * ((POSITION_PRECISION : ℝ) / 2)) + 1

/-- `quantize_blur`: the quantization index
`lrint(log1p(radius * scale) / BLUR_PRECISION)` and the shadow-offset mask
`(1 << ord) - 1`. -/
noncomputable def quantize_blur (radius : ℝ) : Int × Int :=
  (round (Real.log (1 + radius * blur_scale) / BLUR_PRECISION),
   2 ^ (blur_ord radius).toNat - 1)

/-- `sigma = expm1(BLUR_PRECISION * qblur) / scale`. -/
noncomputable def restore_sigma (qblur : Int) : ℝ :=
  (Real.exp (BLUR_PRECISION * qblur) - 1) / blur_scale

/-- `restore_blur`: the restored variance `sigma * sigma`. -/
noncomputable def restore_blur (qblur : Int) : ℝ := restore_sigma qblur * restore_sigma qblur

lemma blur_scale_eq : blur_scale = 1 / 32 := by
  rw [blur_scale, BLUR_PRECISION, POSITION_PRECISION]
  norm_num

lemma quantize_blur_zero_mask : (quantize_blur 0).2 = 7 := by
  have h4 : (1 + (0 : ℝ) * blur_scale) * ((POSITION_PRECISION : ℝ) / 2) = ((4 : ℕ) : ℝ) := by
    rw [POSITION_PRECISION]
    norm_num
  have hord : blur_ord 0 = 3 := by
    rw [blur_ord, h4, Int.log_natCast]
    norm_num [Nat.log]
  simp only [quantize_blur, hord]
  decide

/-- Counterexample for C3 as stated: at blur radius 0 the shadow-offset
mask written by `quantize_blur` is 7 (rounding shadow offsets to the
8-unit = POSITION_PRECISION grid), not 0. -/
theorem quantize_blur_zero_mask_cex : (quantize_blur 0).2 = 7 ∧ (quantize_blur 0).2 ≠ 0 := by
  refine ⟨quantize_blur_zero_mask, ?_⟩
  rw [quantize_blur_zero_mask]
  decide

/-- **C3 (amended).** `quantize_blur` at radius 0 returns index 0 and
shadow-offset mask 7 (not 0); `restore_blur 0` is variance 0; and for
every radius r ≥ 0 the restored variance is within a bounded relative
error of r² (here: within a factor-15 relative error bound). -/
theorem blur_quantize_roundtrip :
    (quantize_blur 0).1 = 0 ∧ (quantize_blur 0).2 = 7 ∧ restore_blur 0 = 0 ∧
    ∀ r : ℝ, 0 ≤ r → |restore_blur (quantize_blur r).1 - r ^ 2| ≤ 15 * r ^ 2 := by
  refine ⟨?_, quantize_blur_zero_mask, ?_, ?_⟩
  · simp [quantize_blur]
  · simp [restore_blur, restore_sigma]
  · intro r hr
    simp only [quantize_blur]
    have hspos : (0 : ℝ) < blur_scale := by
      rw [blur_scale_eq]
      norm_num
    have hBPpos : (0 : ℝ) < BLUR_PRECISION := by
      rw [BLUR_PRECISION]
      norm_num
    have hrs : 0 ≤ r * blur_scale := mul_nonneg hr (le_of_lt hspos)
    have hlogpos : 0 ≤ Real.log (1 + r * blur_scale) := Real.log_nonneg (by linarith)
    set T := Real.log (1 + r * blur_scale) / BLUR_PRECISION with hT
    have hT0 : 0 ≤ T := div_nonneg hlogpos (le_of_lt hBPpos)
    set n := round T with hn
    have habs := abs_sub_round T
    have habs2 := abs_le.mp habs
    have hn0 : 0 ≤ n := by
      by_contra hneg
      push_neg at hneg
      have h1 : n ≤ -1 := by omega
      have h2 : (n : ℝ) ≤ -1 := by exact_mod_cast h1
      linarith [habs2.2]
    have hBPT : BLUR_PRECISION * T = Real.log (1 + r * blur_scale) := by
      rw [hT]
      field_simp
    have hexpT : Real.exp (BLUR_PRECISION * T) = 1 + r * blur_scale := by
      rw [hBPT]
      exact Real.exp_log (by linarith)
    rcases eq_or_lt_of_le hn0 with hzero | hpos
    · have hz : n = 0 := hzero.symm
      rw [hz]
      have h0 : restore_blur 0 = 0 := by
        simp [restore_blur, restore_sigma]
      rw [h0]
      rw [abs_of_nonpos (by nlinarith)]
      nlinarith
    · have hn1 : (1 : ℤ) ≤ n := hpos
      have hn1R : (1 : ℝ) ≤ (n : ℝ) := by exact_mod_cast hn1
      have hTlow : (1 : ℝ) / 2 ≤ T := by linarith [habs2.1]
      have hup : (n : ℝ) ≤ T + 1 / 2 := by linarith [habs2.2]
      have hrlow : Real.exp (BLUR_PRECISION / 2) - 1 ≤ r * blur_scale := by
        have h1 : BLUR_PRECISION / 2 ≤ BLUR_PRECISION * T := by nlinarith
        have h2 := Real.exp_le_exp.mpr h1
        rw [hexpT] at h2
        linarith
    -- upper bound on exp(BP n) - 1
      have hexp3 : Real.exp (BLUR_PRECISION / 2) ≤ 3 := by
        have h1 : Real.exp (BLUR_PRECISION / 2) ≤ Real.exp 1 := by
          apply Real.exp_le_exp.mpr
          rw [BLUR_PRECISION]
          norm_num
        have h2 : Real.exp 1 < 2.7182818286 := Real.exp_one_lt_d9
        linarith
      have hmono : Real.exp (BLUR_PRECISION * n) ≤
          Real.exp (BLUR_PRECISION / 2) * (1 + r * blur_scale) := by
        have h1 : BLUR_PRECISION * n ≤ BLUR_PRECISION * (T + 1 / 2) := by nlinarith
        have h2 := Real.exp_le_exp.mpr h1
        have h3 : Real.exp (BLUR_PRECISION * (T + 1 / 2)) =
            Real.exp (BLUR_PRECISION / 2) * Real.exp (BLUR_PRECISION * T) := by
          rw [← Real.exp_add]
          ring_nf
        rw [h3, hexpT] at h2
        exact h2
      have hexp_pos : (0 : ℝ) < Real.exp (BLUR_PRECISION / 2) := Real.exp_pos _
      have hsig_up : Real.exp (BLUR_PRECISION * n) - 1 ≤ 4 * (r * blur_scale) := by
        nlinarith
      have hsig_lo : 0 ≤ Real.exp (BLUR_PRECISION * n) - 1 := by
        have h1 : (0 : ℝ) ≤ BLUR_PRECISION * n := by positivity
        have h2 := Real.add_one_le_exp (BLUR_PRECISION * (n : ℝ))
        linarith
      have hsigma_le : restore_sigma n ≤ 4 * r := by
        rw [restore_sigma]
        rw [div_le_iff₀ hspos]
        calc Real.exp (BLUR_PRECISION * n) - 1 ≤ 4 * (r * blur_scale) := hsig_up
          _ = 4 * r * blur_scale := by ring
      have hsigma_0 : 0 ≤ restore_sigma n := div_nonneg hsig_lo (le_of_lt hspos)
      rw [restore_blur, abs_le]
      constructor
      · nlinarith
      · nlinarith

/-! ### Transform restoration (`restore_transform`) and the round trip -/

/-- `q_x = POSITION_PRECISION / dx` (restore side; scale chosen so that
`z0 = 1`). -/
def rest_qx (b : ASS_Rect) : ℚ := POSITION_PRECISION / bb_dx b

/-- `q_y = POSITION_PRECISION / dy`. -/
def rest_qy (b : ASS_Rect) : ℚ := POSITION_PRECISION / bb_dy b

/-- Restored affine coefficients `m[0][0] = key->matrix_x.x * q_x` etc. -/
def rest_a00 (k : BitmapHashKey) (b : ASS_Rect) : ℚ := k.mxx * rest_qx b

/-- See `rest_a00`. -/
def rest_a01 (k : BitmapHashKey) (b : ASS_Rect) : ℚ := k.mxy * rest_qy b

/-- See `rest_a00`. -/
def rest_a10 (k : BitmapHashKey) (b : ASS_Rect) : ℚ := k.myx * rest_qx b

/-- See `rest_a00`. -/
def rest_a11 (k : BitmapHashKey) (b : ASS_Rect) : ℚ := k.myy * rest_qy b

/-- `scale_z = 1.0 / POSITION_PRECISION / FFMAX(qmx, qmy)`.  When all four
affine coefficients quantize to zero this division yields `+inf` in the C
code, and the subsequent products `key->matrix_z.x * q_x * scale_z` compute
`0.0 * inf = NaN`, which then propagates through every entry of the restored
matrix.  The `ℚ` totalization below returns 0 instead, so it agrees with the
program only when `FFMAX(qmx, qmy) != 0`; accordingly every theorem about the
restored transform carries the hypothesis `max (qmx, qmy) ≠ 0` and asserts
nothing about the all-NaN regime. -/
def rest_scale_z (k : BitmapHashKey) : ℚ :=
  1 / (POSITION_PRECISION * ((max (|k.mxx| + |k.mxy|) (|k.myx| + |k.myy|) : Int) : ℚ))

/-- Restored perspective coefficient `m[2][0] = key->matrix_z.x * q_x * scale_z`. -/
def rest_p0 (k : BitmapHashKey) (b : ASS_Rect) : ℚ := k.mzx * rest_qx b * rest_scale_z k

/-- See `rest_p0`. -/
def rest_p1 (k : BitmapHashKey) (b : ASS_Rect) : ℚ := k.mzy * rest_qy b * rest_scale_z k

/-- `m[2][2] = FFMIN(1 + fabs(m[2][0]) * dx + fabs(m[2][1]) * dy, MAX_PERSP_SCALE)`. -/
def rest_m22 (k : BitmapHashKey) (b : ASS_Rect) : ℚ :=
  min (1 + |rest_p0 k b| * bb_dx b + |rest_p1 k b| * bb_dy b) MAX_PERSP_SCALE

/-- Restored subpixel center `center[0] = key->offset.x * (64 >> SUBPIXEL_ORDER)`. -/
def rest_cx (k : BitmapHashKey) : ℚ := k.offx * 8

/-- See `rest_cx`. -/
def rest_cy (k : BitmapHashKey) : ℚ := k.offy * 8

/-- `restore_transform`: the approximate floating transform rebuilt from a
quantized key, after adding the subpixel center back
(`m[i][j] += m[2][j] * center[i]`) and undoing the input recentering
(`m[i][2] -= m[i][0] * x0 + m[i][1] * y0`). -/
def restore_transform (k : BitmapHashKey) (b : ASS_Rect) : Transform :=
  { m00 := rest_a00 k b + rest_p0 k b * rest_cx k
    m01 := rest_a01 k b + rest_p1 k b * rest_cx k
    m02 := rest_m22 k b * rest_cx k -
      ((rest_a00 k b + rest_p0 k b * rest_cx k) * bb_x0 b +
        (rest_a01 k b + rest_p1 k b * rest_cx k) * bb_y0 b)
    m10 := rest_a10 k b + rest_p0 k b * rest_cy k
    m11 := rest_a11 k b + rest_p1 k b * rest_cy k
    m12 := rest_m22 k b * rest_cy k -
      ((rest_a10 k b + rest_p0 k b * rest_cy k) * bb_x0 b +
        (rest_a11 k b + rest_p1 k b * rest_cy k) * bb_y0 b)
    m20 := rest_p0 k b
    m21 := rest_p1 k b
    m22 := rest_m22 k b - (rest_p0 k b * bb_x0 b + rest_p1 k b * bb_y0 b) }

/-- The z denominator of the projective transform at a point. -/
def txf_z (m : Transform) (x y : ℚ) : ℚ := m.m20 * x + m.m21 * y + m.m22

/-- `x_out = (m00 x + m01 y + m02) / z`. -/
def txf_x (m : Transform) (x y : ℚ) : ℚ :=
  (m.m00 * x + m.m01 * y + m.m02) / txf_z m x y

/-- `y_out = (m10 x + m11 y + m12) / z`. -/
def txf_y (m : Transform) (x y : ℚ) : ℚ :=
  (m.m10 * x + m.m11 * y + m.m12) / txf_z m x y

lemma abs_mul_le_mul (a b A B : ℚ) (ha : |a| ≤ A) (hb : |b| ≤ B) : |a * b| ≤ A * B := by
  rw [abs_mul]
  exact mul_le_mul ha hb (abs_nonneg _) ((abs_nonneg a).trans ha)

lemma round_cast_abs_le (q : ℚ) : |((round q : ℤ) : ℚ)| ≤ |q| + 1 / 2 := by
  have h := abs_sub_round q
  have h2 : |((round q : ℤ) : ℚ)| ≤ |q| + |q - round q| := by
    calc |((round q : ℤ) : ℚ)| = |q - (q - round q)| := by ring_nf
      _ ≤ |q| + |q - round q| := abs_sub _ _
  linarith

lemma fdiv_emod_recombine (r : ℤ) :
    (64 : ℚ) * ((Int.fdiv r 8 : ℤ) : ℚ) + ((r % 8 : ℤ) : ℚ) * 8 = 8 * (r : ℚ) := by
  have h8 : Int.fdiv r 8 = r / 8 := Int.fdiv_eq_ediv r (by norm_num)
  have h : (8 : ℤ) * (r / 8) + r % 8 = r := Int.ediv_add_emod r 8
  have hq : (8 : ℚ) * ((r / 8 : ℤ) : ℚ) + ((r % 8 : ℤ) : ℚ) = (r : ℚ) := by
    exact_mod_cast congrArg (fun z : ℤ => (z : ℚ)) h
  rw [h8]
  linarith

lemma bb_dx_pos (b : ASS_Rect) (h : b.x_min ≤ b.x_max) : 0 < bb_dx b := by
  unfold bb_dx
  have hc : (b.x_min : ℚ) ≤ (b.x_max : ℚ) := by exact_mod_cast h
  linarith

lemma bb_dy_pos (b : ASS_Rect) (h : b.y_min ≤ b.y_max) : 0 < bb_dy b := by
  unfold bb_dy
  have hc : (b.y_min : ℚ) ≤ (b.y_max : ℚ) := by exact_mod_cast h
  linarith

lemma txf_z_shift (m : Transform) (b : ASS_Rect) (x y : ℚ) :
    txf_z m x y =
      m.m20 * (x - bb_x0 b) + m.m21 * (y - bb_y0 b) + (recenter_input m b).m22 := by
  unfold txf_z recenter_input
  dsimp
  ring

lemma txf_z_ge_z0 (m : Transform) (b : ASS_Rect) (x y : ℚ)
    (hx : |x - bb_x0 b| ≤ bb_dx b) (hy : |y - bb_y0 b| ≤ bb_dy b) :
    bb_z0 m b ≤ txf_z m x y := by
  rw [txf_z_shift m b x y]
  unfold bb_z0
  have h1 : |m.m20 * (x - bb_x0 b)| ≤ |m.m20| * bb_dx b :=
    abs_mul_le_mul _ _ _ _ (le_refl _) hx
  have h2 : |m.m21 * (y - bb_y0 b)| ≤ |m.m21| * bb_dy b :=
    abs_mul_le_mul _ _ _ _ (le_refl _) hy
  have h1l := neg_abs_le (m.m20 * (x - bb_x0 b))
  have h2l := neg_abs_le (m.m21 * (y - bb_y0 b))
  linarith

lemma restore_txf_z (k : BitmapHashKey) (b : ASS_Rect) (x y : ℚ) :
    txf_z (restore_transform k b) x y =
      rest_p0 k b * (x - bb_x0 b) + rest_p1 k b * (y - bb_y0 b) + rest_m22 k b := by
  unfold txf_z restore_transform
  dsimp
  ring

lemma roundtrip_coord_bound (s Z Zq N Nq e : ℚ) (hs : 0 < s) (hZ : s ≤ Z)
    (hZq : 1 ≤ Zq) (hN : |N - s * Nq| ≤ 8 * s)
    (hprod : |Nq| * |s * Zq - Z| ≤ 16 * s) (he : |e| ≤ 1 / 2) :
    |N / Z - Nq / Zq + 8 * e| ≤ 28 := by
  have hZ0 : 0 < Z := lt_of_lt_of_le hs hZ
  have hZq0 : 0 < Zq := lt_of_lt_of_le one_pos hZq
  have hZZq : 0 < Z * Zq := mul_pos hZ0 hZq0
  have hkey : N / Z - Nq / Zq = (N - s * Nq) / Z + Nq * (s * Zq - Z) / (Z * Zq) := by
    field_simp
    ring
  have h1 : |(N - s * Nq) / Z| ≤ 8 := by
    rw [abs_div, abs_of_pos hZ0, div_le_iff₀ hZ0]
    calc |N - s * Nq| ≤ 8 * s := hN
      _ ≤ 8 * Z := by linarith
  have h2 : |Nq * (s * Zq - Z) / (Z * Zq)| ≤ 16 := by
    rw [abs_div, abs_mul, abs_of_pos hZZq, div_le_iff₀ hZZq]
    calc |Nq| * |s * Zq - Z| ≤ 16 * s := hprod
      _ ≤ 16 * (Z * Zq) := by nlinarith
  have h3 : |8 * e| ≤ 4 := by
    rw [abs_mul]
    have : |(8 : ℚ)| = 8 := by norm_num
    rw [this]
    linarith
  calc |N / Z - Nq / Zq + 8 * e|
      = |((N - s * Nq) / Z + Nq * (s * Zq - Z) / (Z * Zq)) + 8 * e| := by rw [hkey]
    _ ≤ |(N - s * Nq) / Z + Nq * (s * Zq - Z) / (Z * Zq)| + |8 * e| := abs_add _ _
    _ ≤ (|(N - s * Nq) / Z| + |Nq * (s * Zq - Z) / (Z * Zq)|) + |8 * e| := by
        have := abs_add ((N - s * Nq) / Z) (Nq * (s * Zq - Z) / (Z * Zq))
        linarith
    _ ≤ (8 + 16) + 4 := by linarith
    _ = 28 := by norm_num

lemma txf_x_decomp (m : Transform) (b : ASS_Rect) (x y : ℚ)
    (hM : (recenter_input m b).m22 ≠ 0) (hz : txf_z m x y ≠ 0) :
    txf_x m x y =
      (aff00 m b * (x - bb_x0 b) + aff01 m b * (y - bb_y0 b)) / txf_z m x y
        + center_x m b := by
  unfold txf_x aff00 aff01 center_x at *
  unfold txf_z recenter_input at *
  dsimp at *
  field_simp
  ring

lemma txf_y_decomp (m : Transform) (b : ASS_Rect) (x y : ℚ)
    (hM : (recenter_input m b).m22 ≠ 0) (hz : txf_z m x y ≠ 0) :
    txf_y m x y =
      (aff10 m b * (x - bb_x0 b) + aff11 m b * (y - bb_y0 b)) / txf_z m x y
        + center_y m b := by
  unfold txf_y aff10 aff11 center_y at *
  unfold txf_z recenter_input at *
  dsimp at *
  field_simp
  ring

lemma restore_txf_x_decomp (k : BitmapHashKey) (b : ASS_Rect) (x y : ℚ)
    (hz : txf_z (restore_transform k b) x y ≠ 0) :
    txf_x (restore_transform k b) x y =
      (rest_a00 k b * (x - bb_x0 b) + rest_a01 k b * (y - bb_y0 b)) /
        txf_z (restore_transform k b) x y + rest_cx k := by
  unfold txf_x at *
  unfold txf_z restore_transform at *
  dsimp at *
  field_simp
  ring

lemma restore_txf_y_decomp (k : BitmapHashKey) (b : ASS_Rect) (x y : ℚ)
    (hz : txf_z (restore_transform k b) x y ≠ 0) :
    txf_y (restore_transform k b) x y =
      (rest_a10 k b * (x - bb_x0 b) + rest_a11 k b * (y - bb_y0 b)) /
        txf_z (restore_transform k b) x y + rest_cy k := by
  unfold txf_y at *
  unfold txf_z restore_transform at *
  dsimp at *
  field_simp
  ring

lemma key_rest_a00 (m : Transform) (first : Bool) (off : ℚ × ℚ) (b : ASS_Rect) :
    rest_a00 (quantize_success m first off b).key b =
      (qm00 m b : ℚ) * (POSITION_PRECISION / bb_dx b) := rfl

lemma key_rest_a01 (m : Transform) (first : Bool) (off : ℚ × ℚ) (b : ASS_Rect) :
    rest_a01 (quantize_success m first off b).key b =
      (qm01 m b : ℚ) * (POSITION_PRECISION / bb_dy b) := rfl

lemma key_rest_a10 (m : Transform) (first : Bool) (off : ℚ × ℚ) (b : ASS_Rect) :
    rest_a10 (quantize_success m first off b).key b =
      (qm10 m b : ℚ) * (POSITION_PRECISION / bb_dx b) := rfl

lemma key_rest_a11 (m : Transform) (first : Bool) (off : ℚ × ℚ) (b : ASS_Rect) :
    rest_a11 (quantize_success m first off b).key b =
      (qm11 m b : ℚ) * (POSITION_PRECISION / bb_dy b) := rfl

lemma key_rest_scale_z (m : Transform) (first : Bool) (off : ℚ × ℚ) (b : ASS_Rect) :
    rest_scale_z (quantize_success m first off b).key = 1 / persp_w m b := rfl

lemma key_rest_p0 (m : Transform) (first : Bool) (off : ℚ × ℚ) (b : ASS_Rect) :
    rest_p0 (quantize_success m first off b).key b =
      (qz0 m b : ℚ) * (POSITION_PRECISION / bb_dx b) * (1 / persp_w m b) := rfl

lemma key_rest_p1 (m : Transform) (first : Bool) (off : ℚ × ℚ) (b : ASS_Rect) :
    rest_p1 (quantize_success m first off b).key b =
      (qz1 m b : ℚ) * (POSITION_PRECISION / bb_dy b) * (1 / persp_w m b) := rfl

lemma key_rest_cx (m : Transform) (first : Bool) (off : ℚ × ℚ) (b : ASS_Rect) :
    rest_cx (quantize_success m first off b).key =
      ((qr_x m b first off.1 % 8 : ℤ) : ℚ) * 8 := rfl

lemma key_rest_cy (m : Transform) (first : Bool) (off : ℚ × ℚ) (b : ASS_Rect) :
    rest_cy (quantize_success m first off b).key =
      ((qr_y m b first off.2 % 8 : ℤ) : ℚ) * 8 := rfl

lemma zclamp_eq_z0 (m : Transform) (b : ASS_Rect)
    (hM : 0 < (recenter_input m b).m22)
    (hcond : (recenter_input m b).m22 ≤ 8 * bb_z0 m b) :
    bb_zclamp m b = bb_z0 m b := by
  unfold bb_zclamp MAX_PERSP_SCALE
  apply max_eq_left
  have hs : 0 < bb_z0 m b := by linarith
  linarith

lemma persp_w_ge_eight (m : Transform) (b : ASS_Rect)
    (hW : max (qmx m b) (qmy m b) ≠ 0) : 8 ≤ persp_w m b := by
  unfold persp_w POSITION_PRECISION
  have h0 : 0 ≤ qmx m b := add_nonneg (abs_nonneg _) (abs_nonneg _)
  have h1 : 1 ≤ max (qmx m b) (qmy m b) := by
    rcases lt_or_le 0 (max (qmx m b) (qmy m b)) with h | h
    · omega
    · exact absurd (le_antisymm h (le_trans h0 (le_max_left _ _))) hW
  have hc : (1 : ℚ) ≤ ((max (qmx m b) (qmy m b) : ℤ) : ℚ) := by exact_mod_cast h1
  linarith

lemma persp_w_pos (m : Transform) (b : ASS_Rect)
    (hW : max (qmx m b) (qmy m b) ≠ 0) : 0 < persp_w m b :=
  lt_of_lt_of_le (by norm_num) (persp_w_ge_eight m b hW)

lemma aff_from_va00 (m : Transform) (b : ASS_Rect)
    (hdx : bb_dx b ≠ 0) (hs : bb_z0 m b ≠ 0) (hzc : bb_zclamp m b = bb_z0 m b) :
    aff00 m b = va00 m b * (8 * bb_z0 m b) / bb_dx b := by
  unfold va00 mul_x POSITION_PRECISION
  rw [hzc]
  field_simp

lemma aff_from_va01 (m : Transform) (b : ASS_Rect)
    (hdy : bb_dy b ≠ 0) (hs : bb_z0 m b ≠ 0) (hzc : bb_zclamp m b = bb_z0 m b) :
    aff01 m b = va01 m b * (8 * bb_z0 m b) / bb_dy b := by
  unfold va01 mul_y POSITION_PRECISION
  rw [hzc]
  field_simp

lemma aff_from_va10 (m : Transform) (b : ASS_Rect)
    (hdx : bb_dx b ≠ 0) (hs : bb_z0 m b ≠ 0) (hzc : bb_zclamp m b = bb_z0 m b) :
    aff10 m b = va10 m b * (8 * bb_z0 m b) / bb_dx b := by
  unfold va10 mul_x POSITION_PRECISION
  rw [hzc]
  field_simp

lemma aff_from_va11 (m : Transform) (b : ASS_Rect)
    (hdy : bb_dy b ≠ 0) (hs : bb_z0 m b ≠ 0) (hzc : bb_zclamp m b = bb_z0 m b) :
    aff11 m b = va11 m b * (8 * bb_z0 m b) / bb_dy b := by
  unfold va11 mul_y POSITION_PRECISION
  rw [hzc]
  field_simp

lemma persp_from_vz0 (m : Transform) (b : ASS_Rect)
    (hdx : bb_dx b ≠ 0) (hs : bb_z0 m b ≠ 0) (hzc : bb_zclamp m b = bb_z0 m b)
    (hW : persp_w m b ≠ 0) :
    m.m20 = vz0 m b * (8 * bb_z0 m b) / (bb_dx b * persp_w m b) := by
  unfold vz0 mul_x POSITION_PRECISION
  rw [hzc]
  field_simp

lemma persp_from_vz1 (m : Transform) (b : ASS_Rect)
    (hdy : bb_dy b ≠ 0) (hs : bb_z0 m b ≠ 0) (hzc : bb_zclamp m b = bb_z0 m b)
    (hW : persp_w m b ≠ 0) :
    m.m21 = vz1 m b * (8 * bb_z0 m b) / (bb_dy b * persp_w m b) := by
  unfold vz1 mul_y POSITION_PRECISION
  rw [hzc]
  field_simp

lemma rest_p0_mul_eq (m : Transform) (first : Bool) (off : ℚ × ℚ) (b : ASS_Rect)
    (hdx : bb_dx b ≠ 0) (hW : persp_w m b ≠ 0) :
    rest_p0 (quantize_success m first off b).key b * bb_dx b * persp_w m b =
      8 * (qz0 m b : ℚ) := by
  rw [key_rest_p0]
  unfold POSITION_PRECISION
  field_simp
  ring

lemma rest_p1_mul_eq (m : Transform) (first : Bool) (off : ℚ × ℚ) (b : ASS_Rect)
    (hdy : bb_dy b ≠ 0) (hW : persp_w m b ≠ 0) :
    rest_p1 (quantize_success m first off b).key b * bb_dy b * persp_w m b =
      8 * (qz1 m b : ℚ) := by
  rw [key_rest_p1]
  unfold POSITION_PRECISION
  field_simp
  ring

lemma vz0_mul_eq (m : Transform) (b : ASS_Rect)
    (hdx : bb_dx b ≠ 0) (hs : bb_z0 m b ≠ 0) (hzc : bb_zclamp m b = bb_z0 m b) :
    8 * bb_z0 m b * vz0 m b = m.m20 * bb_dx b * persp_w m b := by
  unfold vz0 mul_x POSITION_PRECISION
  rw [hzc]
  field_simp
  ring

lemma vz1_mul_eq (m : Transform) (b : ASS_Rect)
    (hdy : bb_dy b ≠ 0) (hs : bb_z0 m b ≠ 0) (hzc : bb_zclamp m b = bb_z0 m b) :
    8 * bb_z0 m b * vz1 m b = m.m21 * bb_dy b * persp_w m b := by
  unfold vz1 mul_y POSITION_PRECISION
  rw [hzc]
  field_simp
  ring

lemma rest_p0_err_abs (m : Transform) (first : Bool) (off : ℚ × ℚ) (b : ASS_Rect)
    (hdx0 : 0 < bb_dx b) (hM : 0 < (recenter_input m b).m22)
    (hcond : (recenter_input m b).m22 ≤ 8 * bb_z0 m b)
    (hmax : max (qmx m b) (qmy m b) ≠ 0) :
    |bb_z0 m b * rest_p0 (quantize_success m first off b).key b - m.m20| *
        (bb_dx b * persp_w m b) ≤ 4 * bb_z0 m b := by
  have hs : 0 < bb_z0 m b := by linarith
  have hzc := zclamp_eq_z0 m b hM hcond
  have hWpos := persp_w_pos m b hmax
  have e1 := rest_p0_mul_eq m first off b (ne_of_gt hdx0) (ne_of_gt hWpos)
  have e2 := vz0_mul_eq m b (ne_of_gt hdx0) (ne_of_gt hs) hzc
  have e4 : (bb_z0 m b * rest_p0 (quantize_success m first off b).key b - m.m20) *
      (bb_dx b * persp_w m b) = 8 * bb_z0 m b * ((qz0 m b : ℚ) - vz0 m b) := by
    linear_combination bb_z0 m b * e1 + e2
  have hr : |vz0 m b - ((qz0 m b : ℤ) : ℚ)| ≤ 1 / 2 := by
    unfold qz0
    exact abs_sub_round _
  calc |bb_z0 m b * rest_p0 (quantize_success m first off b).key b - m.m20| *
        (bb_dx b * persp_w m b)
      = |(bb_z0 m b * rest_p0 (quantize_success m first off b).key b - m.m20) *
          (bb_dx b * persp_w m b)| := by
        rw [abs_mul, abs_of_pos (mul_pos hdx0 hWpos)]
    _ = |8 * bb_z0 m b * (((qz0 m b : ℤ) : ℚ) - vz0 m b)| := by rw [e4]
    _ = 8 * bb_z0 m b * |((qz0 m b : ℤ) : ℚ) - vz0 m b| := by
        rw [abs_mul, abs_of_pos (by positivity : (0 : ℚ) < 8 * bb_z0 m b)]
    _ ≤ 8 * bb_z0 m b * (1 / 2) := by
        have hc : |((qz0 m b : ℤ) : ℚ) - vz0 m b| ≤ 1 / 2 := by
          rw [abs_sub_comm]
          exact hr
        exact mul_le_mul_of_nonneg_left hc (by positivity)
    _ = 4 * bb_z0 m b := by ring

lemma rest_p1_err_abs (m : Transform) (first : Bool) (off : ℚ × ℚ) (b : ASS_Rect)
    (hdy0 : 0 < bb_dy b) (hM : 0 < (recenter_input m b).m22)
    (hcond : (recenter_input m b).m22 ≤ 8 * bb_z0 m b)
    (hmax : max (qmx m b) (qmy m b) ≠ 0) :
    |bb_z0 m b * rest_p1 (quantize_success m first off b).key b - m.m21| *
        (bb_dy b * persp_w m b) ≤ 4 * bb_z0 m b := by
  have hs : 0 < bb_z0 m b := by linarith
  have hzc := zclamp_eq_z0 m b hM hcond
  have hWpos := persp_w_pos m b hmax
  have e1 := rest_p1_mul_eq m first off b (ne_of_gt hdy0) (ne_of_gt hWpos)
  have e2 := vz1_mul_eq m b (ne_of_gt hdy0) (ne_of_gt hs) hzc
  have e4 : (bb_z0 m b * rest_p1 (quantize_success m first off b).key b - m.m21) *
      (bb_dy b * persp_w m b) = 8 * bb_z0 m b * ((qz1 m b : ℚ) - vz1 m b) := by
    linear_combination bb_z0 m b * e1 + e2
  have hr : |vz1 m b - ((qz1 m b : ℤ) : ℚ)| ≤ 1 / 2 := by
    unfold qz1
    exact abs_sub_round _
  calc |bb_z0 m b * rest_p1 (quantize_success m first off b).key b - m.m21| *
        (bb_dy b * persp_w m b)
      = |(bb_z0 m b * rest_p1 (quantize_success m first off b).key b - m.m21) *
          (bb_dy b * persp_w m b)| := by
        rw [abs_mul, abs_of_pos (mul_pos hdy0 hWpos)]
    _ = |8 * bb_z0 m b * (((qz1 m b : ℤ) : ℚ) - vz1 m b)| := by rw [e4]
    _ = 8 * bb_z0 m b * |((qz1 m b : ℤ) : ℚ) - vz1 m b| := by
        rw [abs_mul, abs_of_pos (by positivity : (0 : ℚ) < 8 * bb_z0 m b)]
    _ ≤ 8 * bb_z0 m b * (1 / 2) := by
        have hc : |((qz1 m b : ℤ) : ℚ) - vz1 m b| ≤ 1 / 2 := by
          rw [abs_sub_comm]
          exact hr
        exact mul_le_mul_of_nonneg_left hc (by positivity)
    _ = 4 * bb_z0 m b := by ring

lemma rest_p0_size_abs (m : Transform) (first : Bool) (off : ℚ × ℚ) (b : ASS_Rect)
    (hdx0 : 0 < bb_dx b) (hM : 0 < (recenter_input m b).m22)
    (hcond : (recenter_input m b).m22 ≤ 8 * bb_z0 m b)
    (hmax : max (qmx m b) (qmy m b) ≠ 0) :
    |rest_p0 (quantize_success m first off b).key b| * bb_dx b *
        (bb_z0 m b * persp_w m b) ≤
      |m.m20| * bb_dx b * persp_w m b + 4 * bb_z0 m b := by
  have hs : 0 < bb_z0 m b := by linarith
  have hzc := zclamp_eq_z0 m b hM hcond
  have hWpos := persp_w_pos m b hmax
  have e1 := rest_p0_mul_eq m first off b (ne_of_gt hdx0) (ne_of_gt hWpos)
  have e2 := vz0_mul_eq m b (ne_of_gt hdx0) (ne_of_gt hs) hzc
  have eabs1 : |rest_p0 (quantize_success m first off b).key b| * bb_dx b * persp_w m b =
      8 * |((qz0 m b : ℤ) : ℚ)| := by
    have h : |rest_p0 (quantize_success m first off b).key b * bb_dx b * persp_w m b| =
        |rest_p0 (quantize_success m first off b).key b| * bb_dx b * persp_w m b := by
      rw [abs_mul, abs_mul, abs_of_pos hdx0, abs_of_pos hWpos]
    rw [← h, e1, abs_mul]
    norm_num
  have eabs2 : 8 * bb_z0 m b * |vz0 m b| = |m.m20| * bb_dx b * persp_w m b := by
    have h := congrArg (fun t : ℚ => |t|) e2
    dsimp at h
    rw [abs_mul, abs_mul, abs_mul, abs_mul, abs_of_pos hs, abs_of_pos hdx0,
      abs_of_pos hWpos] at h
    norm_num at h
    linear_combination h
  have hq : |((qz0 m b : ℤ) : ℚ)| ≤ |vz0 m b| + 1 / 2 := by
    unfold qz0
    exact round_cast_abs_le _
  calc |rest_p0 (quantize_success m first off b).key b| * bb_dx b *
        (bb_z0 m b * persp_w m b)
      = bb_z0 m b *
          (|rest_p0 (quantize_success m first off b).key b| * bb_dx b * persp_w m b) := by
        ring
    _ = bb_z0 m b * (8 * |((qz0 m b : ℤ) : ℚ)|) := by rw [eabs1]
    _ ≤ bb_z0 m b * (8 * (|vz0 m b| + 1 / 2)) := by
        have h8 : 8 * |((qz0 m b : ℤ) : ℚ)| ≤ 8 * (|vz0 m b| + 1 / 2) := by linarith
        exact mul_le_mul_of_nonneg_left h8 hs.le
    _ = 8 * bb_z0 m b * |vz0 m b| + 4 * bb_z0 m b := by ring
    _ = |m.m20| * bb_dx b * persp_w m b + 4 * bb_z0 m b := by rw [eabs2]

lemma rest_p1_size_abs (m : Transform) (first : Bool) (off : ℚ × ℚ) (b : ASS_Rect)
    (hdy0 : 0 < bb_dy b) (hM : 0 < (recenter_input m b).m22)
    (hcond : (recenter_input m b).m22 ≤ 8 * bb_z0 m b)
    (hmax : max (qmx m b) (qmy m b) ≠ 0) :
    |rest_p1 (quantize_success m first off b).key b| * bb_dy b *
        (bb_z0 m b * persp_w m b) ≤
      |m.m21| * bb_dy b * persp_w m b + 4 * bb_z0 m b := by
  have hs : 0 < bb_z0 m b := by linarith
  have hzc := zclamp_eq_z0 m b hM hcond
  have hWpos := persp_w_pos m b hmax
  have e1 := rest_p1_mul_eq m first off b (ne_of_gt hdy0) (ne_of_gt hWpos)
  have e2 := vz1_mul_eq m b (ne_of_gt hdy0) (ne_of_gt hs) hzc
  have eabs1 : |rest_p1 (quantize_success m first off b).key b| * bb_dy b * persp_w m b =
      8 * |((qz1 m b : ℤ) : ℚ)| := by
    have h : |rest_p1 (quantize_success m first off b).key b * bb_dy b * persp_w m b| =
        |rest_p1 (quantize_success m first off b).key b| * bb_dy b * persp_w m b := by
      rw [abs_mul, abs_mul, abs_of_pos hdy0, abs_of_pos hWpos]
    rw [← h, e1, abs_mul]
    norm_num
  have eabs2 : 8 * bb_z0 m b * |vz1 m b| = |m.m21| * bb_dy b * persp_w m b := by
    have h := congrArg (fun t : ℚ => |t|) e2
    dsimp at h
    rw [abs_mul, abs_mul, abs_mul, abs_mul, abs_of_pos hs, abs_of_pos hdy0,
      abs_of_pos hWpos] at h
    norm_num at h
    linear_combination h
  have hq : |((qz1 m b : ℤ) : ℚ)| ≤ |vz1 m b| + 1 / 2 := by
    unfold qz1
    exact round_cast_abs_le _
  calc |rest_p1 (quantize_success m first off b).key b| * bb_dy b *
        (bb_z0 m b * persp_w m b)
      = bb_z0 m b *
          (|rest_p1 (quantize_success m first off b).key b| * bb_dy b * persp_w m b) := by
        ring
    _ = bb_z0 m b * (8 * |((qz1 m b : ℤ) : ℚ)|) := by rw [eabs1]
    _ ≤ bb_z0 m b * (8 * (|vz1 m b| + 1 / 2)) := by
        have h8 : 8 * |((qz1 m b : ℤ) : ℚ)| ≤ 8 * (|vz1 m b| + 1 / 2) := by linarith
        exact mul_le_mul_of_nonneg_left h8 hs.le
    _ = 8 * bb_z0 m b * |vz1 m b| + 4 * bb_z0 m b := by ring
    _ = |m.m21| * bb_dy b * persp_w m b + 4 * bb_z0 m b := by rw [eabs2]

lemma rest_sigma_le (m : Transform) (first : Bool) (off : ℚ × ℚ) (b : ASS_Rect)
    (hbx : b.x_min ≤ b.x_max) (hby : b.y_min ≤ b.y_max)
    (hM : 0 < (recenter_input m b).m22)
    (hcond : (recenter_input m b).m22 ≤ 8 * bb_z0 m b)
    (hmax : max (qmx m b) (qmy m b) ≠ 0) :
    |rest_p0 (quantize_success m first off b).key b| * bb_dx b +
      |rest_p1 (quantize_success m first off b).key b| * bb_dy b ≤ 8 := by
  have hdx0 := bb_dx_pos b hbx
  have hdy0 := bb_dy_pos b hby
  have hs : 0 < bb_z0 m b := by linarith
  have hW8 := persp_w_ge_eight m b hmax
  have hWpos : 0 < persp_w m b := by linarith
  have s1 := rest_p0_size_abs m first off b hdx0 hM hcond hmax
  have s2 := rest_p1_size_abs m first off b hdy0 hM hcond hmax
  have hdecomp : |m.m20| * bb_dx b + |m.m21| * bb_dy b =
      (recenter_input m b).m22 - bb_z0 m b := by
    unfold bb_z0
    ring
  have hcW : ((recenter_input m b).m22 - bb_z0 m b) * persp_w m b ≤
      7 * bb_z0 m b * persp_w m b := by
    have hMs : (recenter_input m b).m22 - bb_z0 m b ≤ 7 * bb_z0 m b := by linarith
    exact mul_le_mul_of_nonneg_right hMs hWpos.le
  have h8s : 8 * bb_z0 m b ≤ bb_z0 m b * persp_w m b := by
    nlinarith [mul_nonneg hs.le (by linarith : (0 : ℚ) ≤ persp_w m b - 8)]
  have hsum : (|rest_p0 (quantize_success m first off b).key b| * bb_dx b +
      |rest_p1 (quantize_success m first off b).key b| * bb_dy b) *
        (bb_z0 m b * persp_w m b) ≤ 8 * (bb_z0 m b * persp_w m b) := by
    calc (|rest_p0 (quantize_success m first off b).key b| * bb_dx b +
        |rest_p1 (quantize_success m first off b).key b| * bb_dy b) *
          (bb_z0 m b * persp_w m b)
        = |rest_p0 (quantize_success m first off b).key b| * bb_dx b *
            (bb_z0 m b * persp_w m b) +
          |rest_p1 (quantize_success m first off b).key b| * bb_dy b *
            (bb_z0 m b * persp_w m b) := by ring
      _ ≤ (|m.m20| * bb_dx b * persp_w m b + 4 * bb_z0 m b) +
          (|m.m21| * bb_dy b * persp_w m b + 4 * bb_z0 m b) := add_le_add s1 s2
      _ = (|m.m20| * bb_dx b + |m.m21| * bb_dy b) * persp_w m b + 8 * bb_z0 m b := by
          ring
      _ = ((recenter_input m b).m22 - bb_z0 m b) * persp_w m b + 8 * bb_z0 m b := by
          rw [hdecomp]
      _ ≤ 7 * bb_z0 m b * persp_w m b + 8 * bb_z0 m b := by linarith
      _ ≤ 8 * (bb_z0 m b * persp_w m b) := by linarith
  exact le_of_mul_le_mul_right hsum (by positivity)

lemma rest_m22_eq_unclamped (m : Transform) (first : Bool) (off : ℚ × ℚ) (b : ASS_Rect)
    (hbx : b.x_min ≤ b.x_max) (hby : b.y_min ≤ b.y_max)
    (hM : 0 < (recenter_input m b).m22)
    (hcond : (recenter_input m b).m22 ≤ 8 * bb_z0 m b)
    (hmax : max (qmx m b) (qmy m b) ≠ 0) :
    rest_m22 (quantize_success m first off b).key b =
      1 + (|rest_p0 (quantize_success m first off b).key b| * bb_dx b +
        |rest_p1 (quantize_success m first off b).key b| * bb_dy b) := by
  unfold rest_m22 MAX_PERSP_SCALE
  rw [min_eq_left]
  · ring
  · have := rest_sigma_le m first off b hbx hby hM hcond hmax
    linarith

lemma restore_z_ge_one (m : Transform) (first : Bool) (off : ℚ × ℚ) (b : ASS_Rect)
    (x y : ℚ) (hbx : b.x_min ≤ b.x_max) (hby : b.y_min ≤ b.y_max)
    (hM : 0 < (recenter_input m b).m22)
    (hcond : (recenter_input m b).m22 ≤ 8 * bb_z0 m b)
    (hmax : max (qmx m b) (qmy m b) ≠ 0)
    (hx : |x - bb_x0 b| ≤ bb_dx b) (hy : |y - bb_y0 b| ≤ bb_dy b) :
    1 ≤ txf_z (restore_transform (quantize_success m first off b).key b) x y := by
  rw [restore_txf_z, rest_m22_eq_unclamped m first off b hbx hby hM hcond hmax]
  have h1 : |rest_p0 (quantize_success m first off b).key b * (x - bb_x0 b)| ≤
      |rest_p0 (quantize_success m first off b).key b| * bb_dx b :=
    abs_mul_le_mul _ _ _ _ (le_refl _) hx
  have h2 : |rest_p1 (quantize_success m first off b).key b * (y - bb_y0 b)| ≤
      |rest_p1 (quantize_success m first off b).key b| * bb_dy b :=
    abs_mul_le_mul _ _ _ _ (le_refl _) hy
  have h1l := neg_abs_le (rest_p0 (quantize_success m first off b).key b * (x - bb_x0 b))
  have h2l := neg_abs_le (rest_p1 (quantize_success m first off b).key b * (y - bb_y0 b))
  linarith

lemma sz_err_abstract (A0 A1 B0 B1 u v d1 d2 W s : ℚ)
    (hd1 : 0 < d1) (hd2 : 0 < d2) (hW : 0 < W)
    (hu : |u| ≤ d1) (hv : |v| ≤ d2)
    (hB0 : |B0| ≤ |A0|) (hB1 : |B1| ≤ |A1|)
    (e0 : |A0| * (d1 * W) ≤ 4 * s) (e1 : |A1| * (d2 * W) ≤ 4 * s) :
    |A0 * u + A1 * v + (B0 * d1 + B1 * d2)| * W ≤ 16 * s := by
  have t1 : |A0 * u| ≤ |A0| * d1 := abs_mul_le_mul _ _ _ _ (le_refl _) hu
  have t2 : |A1 * v| ≤ |A1| * d2 := abs_mul_le_mul _ _ _ _ (le_refl _) hv
  have t3 : |B0 * d1| ≤ |A0| * d1 := by
    rw [abs_mul, abs_of_pos hd1]
    exact mul_le_mul_of_nonneg_right hB0 hd1.le
  have t4 : |B1 * d2| ≤ |A1| * d2 := by
    rw [abs_mul, abs_of_pos hd2]
    exact mul_le_mul_of_nonneg_right hB1 hd2.le
  have h1 : |A0 * u + A1 * v + (B0 * d1 + B1 * d2)| ≤
      2 * (|A0| * d1) + 2 * (|A1| * d2) := by
    calc |A0 * u + A1 * v + (B0 * d1 + B1 * d2)|
        ≤ |A0 * u + A1 * v| + |B0 * d1 + B1 * d2| := abs_add _ _
      _ ≤ (|A0 * u| + |A1 * v|) + (|B0 * d1| + |B1 * d2|) :=
          add_le_add (abs_add _ _) (abs_add _ _)
      _ ≤ 2 * (|A0| * d1) + 2 * (|A1| * d2) := by linarith
  have h2 := mul_le_mul_of_nonneg_right h1 hW.le
  calc |A0 * u + A1 * v + (B0 * d1 + B1 * d2)| * W
      ≤ (2 * (|A0| * d1) + 2 * (|A1| * d2)) * W := h2
    _ = 2 * (|A0| * (d1 * W)) + 2 * (|A1| * (d2 * W)) := by ring
    _ ≤ 2 * (4 * s) + 2 * (4 * s) := by linarith
    _ = 16 * s := by ring

lemma sz_err_mul (m : Transform) (first : Bool) (off : ℚ × ℚ) (b : ASS_Rect)
    (x y : ℚ) (hbx : b.x_min ≤ b.x_max) (hby : b.y_min ≤ b.y_max)
    (hM : 0 < (recenter_input m b).m22)
    (hcond : (recenter_input m b).m22 ≤ 8 * bb_z0 m b)
    (hx : |x - bb_x0 b| ≤ bb_dx b) (hy : |y - bb_y0 b| ≤ bb_dy b)
    (hmax : max (qmx m b) (qmy m b) ≠ 0) :
    |bb_z0 m b * txf_z (restore_transform (quantize_success m first off b).key b) x y -
        txf_z m x y| * persp_w m b ≤ 16 * bb_z0 m b := by
  have hdx0 := bb_dx_pos b hbx
  have hdy0 := bb_dy_pos b hby
  have hs : 0 < bb_z0 m b := by linarith
  have hWpos := persp_w_pos m b hmax
  have e0 := rest_p0_err_abs m first off b hdx0 hM hcond hmax
  have e1 := rest_p1_err_abs m first off b hdy0 hM hcond hmax
  have hiden : bb_z0 m b *
        txf_z (restore_transform (quantize_success m first off b).key b) x y -
        txf_z m x y =
      (bb_z0 m b * rest_p0 (quantize_success m first off b).key b - m.m20) *
          (x - bb_x0 b) +
        (bb_z0 m b * rest_p1 (quantize_success m first off b).key b - m.m21) *
          (y - bb_y0 b) +
        ((bb_z0 m b * |rest_p0 (quantize_success m first off b).key b| - |m.m20|) *
            bb_dx b +
          (bb_z0 m b * |rest_p1 (quantize_success m first off b).key b| - |m.m21|) *
            bb_dy b) := by
    rw [restore_txf_z, rest_m22_eq_unclamped m first off b hbx hby hM hcond hmax,
      txf_z_shift m b x y]
    unfold bb_z0
    ring
  have habs0 : abs (bb_z0 m b * |rest_p0 (quantize_success m first off b).key b| -
      |m.m20|) ≤
      |bb_z0 m b * rest_p0 (quantize_success m first off b).key b - m.m20| := by
    have h1 : bb_z0 m b * |rest_p0 (quantize_success m first off b).key b| =
        |bb_z0 m b * rest_p0 (quantize_success m first off b).key b| := by
      rw [abs_mul, abs_of_pos hs]
    rw [h1]
    exact abs_abs_sub_abs_le_abs_sub _ _
  have habs1 : abs (bb_z0 m b * |rest_p1 (quantize_success m first off b).key b| -
      |m.m21|) ≤
      |bb_z0 m b * rest_p1 (quantize_success m first off b).key b - m.m21| := by
    have h1 : bb_z0 m b * |rest_p1 (quantize_success m first off b).key b| =
        |bb_z0 m b * rest_p1 (quantize_success m first off b).key b| := by
      rw [abs_mul, abs_of_pos hs]
    rw [h1]
    exact abs_abs_sub_abs_le_abs_sub _ _
  rw [hiden]
  exact sz_err_abstract _ _ _ _ _ _ _ _ _ _ hdx0 hdy0 hWpos hx hy habs0 habs1 e0 e1

lemma rest_a00_mul_eq (m : Transform) (first : Bool) (off : ℚ × ℚ) (b : ASS_Rect)
    (hdx : bb_dx b ≠ 0) :
    rest_a00 (quantize_success m first off b).key b * bb_dx b = 8 * (qm00 m b : ℚ) := by
  rw [key_rest_a00]
  unfold POSITION_PRECISION
  field_simp
  ring

lemma rest_a01_mul_eq (m : Transform) (first : Bool) (off : ℚ × ℚ) (b : ASS_Rect)
    (hdy : bb_dy b ≠ 0) :
    rest_a01 (quantize_success m first off b).key b * bb_dy b = 8 * (qm01 m b : ℚ) := by
  rw [key_rest_a01]
  unfold POSITION_PRECISION
  field_simp
  ring

lemma rest_a10_mul_eq (m : Transform) (first : Bool) (off : ℚ × ℚ) (b : ASS_Rect)
    (hdx : bb_dx b ≠ 0) :
    rest_a10 (quantize_success m first off b).key b * bb_dx b = 8 * (qm10 m b : ℚ) := by
  rw [key_rest_a10]
  unfold POSITION_PRECISION
  field_simp
  ring

lemma rest_a11_mul_eq (m : Transform) (first : Bool) (off : ℚ × ℚ) (b : ASS_Rect)
    (hdy : bb_dy b ≠ 0) :
    rest_a11 (quantize_success m first off b).key b * bb_dy b = 8 * (qm11 m b : ℚ) := by
  rw [key_rest_a11]
  unfold POSITION_PRECISION
  field_simp
  ring

lemma nq_abs_le_w_x (m : Transform) (first : Bool) (off : ℚ × ℚ) (b : ASS_Rect)
    (x y : ℚ) (hbx : b.x_min ≤ b.x_max) (hby : b.y_min ≤ b.y_max)
    (hx : |x - bb_x0 b| ≤ bb_dx b) (hy : |y - bb_y0 b| ≤ bb_dy b) :
    |rest_a00 (quantize_success m first off b).key b * (x - bb_x0 b) +
      rest_a01 (quantize_success m first off b).key b * (y - bb_y0 b)| ≤
      persp_w m b := by
  have hdx0 := bb_dx_pos b hbx
  have hdy0 := bb_dy_pos b hby
  have h0 : |rest_a00 (quantize_success m first off b).key b| * bb_dx b =
      8 * |(qm00 m b : ℚ)| := by
    have h : |rest_a00 (quantize_success m first off b).key b * bb_dx b| =
        |rest_a00 (quantize_success m first off b).key b| * bb_dx b := by
      rw [abs_mul, abs_of_pos hdx0]
    rw [← h, rest_a00_mul_eq m first off b (ne_of_gt hdx0), abs_mul]
    norm_num
  have h1 : |rest_a01 (quantize_success m first off b).key b| * bb_dy b =
      8 * |(qm01 m b : ℚ)| := by
    have h : |rest_a01 (quantize_success m first off b).key b * bb_dy b| =
        |rest_a01 (quantize_success m first off b).key b| * bb_dy b := by
      rw [abs_mul, abs_of_pos hdy0]
    rw [← h, rest_a01_mul_eq m first off b (ne_of_gt hdy0), abs_mul]
    norm_num
  have t0 : |rest_a00 (quantize_success m first off b).key b * (x - bb_x0 b)| ≤
      |rest_a00 (quantize_success m first off b).key b| * bb_dx b :=
    abs_mul_le_mul _ _ _ _ (le_refl _) hx
  have t1 : |rest_a01 (quantize_success m first off b).key b * (y - bb_y0 b)| ≤
      |rest_a01 (quantize_success m first off b).key b| * bb_dy b :=
    abs_mul_le_mul _ _ _ _ (le_refl _) hy
  have hcast : 8 * |(qm00 m b : ℚ)| + 8 * |(qm01 m b : ℚ)| ≤ persp_w m b := by
    unfold persp_w POSITION_PRECISION
    have hle : (qmx m b : ℚ) ≤ ((max (qmx m b) (qmy m b) : ℤ) : ℚ) := by
      exact_mod_cast le_max_left (qmx m b) (qmy m b)
    have hqx : (qmx m b : ℚ) = |(qm00 m b : ℚ)| + |(qm01 m b : ℚ)| := by
      unfold qmx
      push_cast
      ring
    rw [hqx] at hle
    linarith
  calc |rest_a00 (quantize_success m first off b).key b * (x - bb_x0 b) +
        rest_a01 (quantize_success m first off b).key b * (y - bb_y0 b)|
      ≤ |rest_a00 (quantize_success m first off b).key b * (x - bb_x0 b)| +
        |rest_a01 (quantize_success m first off b).key b * (y - bb_y0 b)| := abs_add _ _
    _ ≤ 8 * |(qm00 m b : ℚ)| + 8 * |(qm01 m b : ℚ)| := by linarith
    _ ≤ persp_w m b := hcast

lemma nq_abs_le_w_y (m : Transform) (first : Bool) (off : ℚ × ℚ) (b : ASS_Rect)
    (x y : ℚ) (hbx : b.x_min ≤ b.x_max) (hby : b.y_min ≤ b.y_max)
    (hx : |x - bb_x0 b| ≤ bb_dx b) (hy : |y - bb_y0 b| ≤ bb_dy b) :
    |rest_a10 (quantize_success m first off b).key b * (x - bb_x0 b) +
      rest_a11 (quantize_success m first off b).key b * (y - bb_y0 b)| ≤
      persp_w m b := by
  have hdx0 := bb_dx_pos b hbx
  have hdy0 := bb_dy_pos b hby
  have h0 : |rest_a10 (quantize_success m first off b).key b| * bb_dx b =
      8 * |(qm10 m b : ℚ)| := by
    have h : |rest_a10 (quantize_success m first off b).key b * bb_dx b| =
        |rest_a10 (quantize_success m first off b).key b| * bb_dx b := by
      rw [abs_mul, abs_of_pos hdx0]
    rw [← h, rest_a10_mul_eq m first off b (ne_of_gt hdx0), abs_mul]
    norm_num
  have h1 : |rest_a11 (quantize_success m first off b).key b| * bb_dy b =
      8 * |(qm11 m b : ℚ)| := by
    have h : |rest_a11 (quantize_success m first off b).key b * bb_dy b| =
        |rest_a11 (quantize_success m first off b).key b| * bb_dy b := by
      rw [abs_mul, abs_of_pos hdy0]
    rw [← h, rest_a11_mul_eq m first off b (ne_of_gt hdy0), abs_mul]
    norm_num
  have t0 : |rest_a10 (quantize_success m first off b).key b * (x - bb_x0 b)| ≤
      |rest_a10 (quantize_success m first off b).key b| * bb_dx b :=
    abs_mul_le_mul _ _ _ _ (le_refl _) hx
  have t1 : |rest_a11 (quantize_success m first off b).key b * (y - bb_y0 b)| ≤
      |rest_a11 (quantize_success m first off b).key b| * bb_dy b :=
    abs_mul_le_mul _ _ _ _ (le_refl _) hy
  have hcast : 8 * |(qm10 m b : ℚ)| + 8 * |(qm11 m b : ℚ)| ≤ persp_w m b := by
    unfold persp_w POSITION_PRECISION
    have hle : (qmy m b : ℚ) ≤ ((max (qmx m b) (qmy m b) : ℤ) : ℚ) := by
      exact_mod_cast le_max_right (qmx m b) (qmy m b)
    have hqy : (qmy m b : ℚ) = |(qm10 m b : ℚ)| + |(qm11 m b : ℚ)| := by
      unfold qmy
      push_cast
      ring
    rw [hqy] at hle
    linarith
  calc |rest_a10 (quantize_success m first off b).key b * (x - bb_x0 b) +
        rest_a11 (quantize_success m first off b).key b * (y - bb_y0 b)|
      ≤ |rest_a10 (quantize_success m first off b).key b * (x - bb_x0 b)| +
        |rest_a11 (quantize_success m first off b).key b * (y - bb_y0 b)| := abs_add _ _
    _ ≤ 8 * |(qm10 m b : ℚ)| + 8 * |(qm11 m b : ℚ)| := by linarith
    _ ≤ persp_w m b := hcast

lemma prod_bound_x (m : Transform) (first : Bool) (off : ℚ × ℚ) (b : ASS_Rect)
    (x y : ℚ) (hbx : b.x_min ≤ b.x_max) (hby : b.y_min ≤ b.y_max)
    (hM : 0 < (recenter_input m b).m22)
    (hcond : (recenter_input m b).m22 ≤ 8 * bb_z0 m b)
    (hmax : max (qmx m b) (qmy m b) ≠ 0)
    (hx : |x - bb_x0 b| ≤ bb_dx b) (hy : |y - bb_y0 b| ≤ bb_dy b) :
    |rest_a00 (quantize_success m first off b).key b * (x - bb_x0 b) +
        rest_a01 (quantize_success m first off b).key b * (y - bb_y0 b)| *
      |bb_z0 m b *
          txf_z (restore_transform (quantize_success m first off b).key b) x y -
        txf_z m x y| ≤ 16 * bb_z0 m b := by
  have hn := nq_abs_le_w_x m first off b x y hbx hby hx hy
  have hd := sz_err_mul m first off b x y hbx hby hM hcond hx hy hmax
  calc |rest_a00 (quantize_success m first off b).key b * (x - bb_x0 b) +
        rest_a01 (quantize_success m first off b).key b * (y - bb_y0 b)| *
      |bb_z0 m b *
          txf_z (restore_transform (quantize_success m first off b).key b) x y -
        txf_z m x y|
      ≤ persp_w m b *
        |bb_z0 m b *
            txf_z (restore_transform (quantize_success m first off b).key b) x y -
          txf_z m x y| := mul_le_mul_of_nonneg_right hn (abs_nonneg _)
    _ = |bb_z0 m b *
            txf_z (restore_transform (quantize_success m first off b).key b) x y -
          txf_z m x y| * persp_w m b := mul_comm _ _
    _ ≤ 16 * bb_z0 m b := hd

lemma prod_bound_y (m : Transform) (first : Bool) (off : ℚ × ℚ) (b : ASS_Rect)
    (x y : ℚ) (hbx : b.x_min ≤ b.x_max) (hby : b.y_min ≤ b.y_max)
    (hM : 0 < (recenter_input m b).m22)
    (hcond : (recenter_input m b).m22 ≤ 8 * bb_z0 m b)
    (hmax : max (qmx m b) (qmy m b) ≠ 0)
    (hx : |x - bb_x0 b| ≤ bb_dx b) (hy : |y - bb_y0 b| ≤ bb_dy b) :
    |rest_a10 (quantize_success m first off b).key b * (x - bb_x0 b) +
        rest_a11 (quantize_success m first off b).key b * (y - bb_y0 b)| *
      |bb_z0 m b *
          txf_z (restore_transform (quantize_success m first off b).key b) x y -
        txf_z m x y| ≤ 16 * bb_z0 m b := by
  have hn := nq_abs_le_w_y m first off b x y hbx hby hx hy
  have hd := sz_err_mul m first off b x y hbx hby hM hcond hx hy hmax
  calc |rest_a10 (quantize_success m first off b).key b * (x - bb_x0 b) +
        rest_a11 (quantize_success m first off b).key b * (y - bb_y0 b)| *
      |bb_z0 m b *
          txf_z (restore_transform (quantize_success m first off b).key b) x y -
        txf_z m x y|
      ≤ persp_w m b *
        |bb_z0 m b *
            txf_z (restore_transform (quantize_success m first off b).key b) x y -
          txf_z m x y| := mul_le_mul_of_nonneg_right hn (abs_nonneg _)
    _ = |bb_z0 m b *
            txf_z (restore_transform (quantize_success m first off b).key b) x y -
          txf_z m x y| * persp_w m b := mul_comm _ _
    _ ≤ 16 * bb_z0 m b := hd

lemma n_err_x (m : Transform) (first : Bool) (off : ℚ × ℚ) (b : ASS_Rect)
    (x y : ℚ) (hbx : b.x_min ≤ b.x_max) (hby : b.y_min ≤ b.y_max)
    (hM : 0 < (recenter_input m b).m22)
    (hcond : (recenter_input m b).m22 ≤ 8 * bb_z0 m b)
    (hx : |x - bb_x0 b| ≤ bb_dx b) (hy : |y - bb_y0 b| ≤ bb_dy b) :
    |(aff00 m b * (x - bb_x0 b) + aff01 m b * (y - bb_y0 b)) -
        bb_z0 m b * (rest_a00 (quantize_success m first off b).key b * (x - bb_x0 b) +
          rest_a01 (quantize_success m first off b).key b * (y - bb_y0 b))| ≤
      8 * bb_z0 m b := by
  have hdx0 := bb_dx_pos b hbx
  have hdy0 := bb_dy_pos b hby
  have hs : 0 < bb_z0 m b := by linarith
  have hzc := zclamp_eq_z0 m b hM hcond
  have c0 : (aff00 m b -
      bb_z0 m b * rest_a00 (quantize_success m first off b).key b) * bb_dx b =
      8 * bb_z0 m b * (va00 m b - (qm00 m b : ℚ)) := by
    rw [aff_from_va00 m b (ne_of_gt hdx0) (ne_of_gt hs) hzc, key_rest_a00]
    unfold POSITION_PRECISION
    field_simp
    ring
  have c1 : (aff01 m b -
      bb_z0 m b * rest_a01 (quantize_success m first off b).key b) * bb_dy b =
      8 * bb_z0 m b * (va01 m b - (qm01 m b : ℚ)) := by
    rw [aff_from_va01 m b (ne_of_gt hdy0) (ne_of_gt hs) hzc, key_rest_a01]
    unfold POSITION_PRECISION
    field_simp
    ring
  have r0 : |va00 m b - ((qm00 m b : ℤ) : ℚ)| ≤ 1 / 2 := by
    unfold qm00
    exact abs_sub_round _
  have r1 : |va01 m b - ((qm01 m b : ℤ) : ℚ)| ≤ 1 / 2 := by
    unfold qm01
    exact abs_sub_round _
  have b0 : |aff00 m b -
      bb_z0 m b * rest_a00 (quantize_success m first off b).key b| * bb_dx b ≤
      4 * bb_z0 m b := by
    have h : |(aff00 m b -
        bb_z0 m b * rest_a00 (quantize_success m first off b).key b) * bb_dx b| =
        |aff00 m b -
          bb_z0 m b * rest_a00 (quantize_success m first off b).key b| * bb_dx b := by
      rw [abs_mul, abs_of_pos hdx0]
    rw [← h, c0, abs_mul, abs_of_pos (by positivity : (0 : ℚ) < 8 * bb_z0 m b)]
    calc 8 * bb_z0 m b * |va00 m b - ((qm00 m b : ℤ) : ℚ)|
        ≤ 8 * bb_z0 m b * (1 / 2) := mul_le_mul_of_nonneg_left r0 (by positivity)
      _ = 4 * bb_z0 m b := by ring
  have b1 : |aff01 m b -
      bb_z0 m b * rest_a01 (quantize_success m first off b).key b| * bb_dy b ≤
      4 * bb_z0 m b := by
    have h : |(aff01 m b -
        bb_z0 m b * rest_a01 (quantize_success m first off b).key b) * bb_dy b| =
        |aff01 m b -
          bb_z0 m b * rest_a01 (quantize_success m first off b).key b| * bb_dy b := by
      rw [abs_mul, abs_of_pos hdy0]
    rw [← h, c1, abs_mul, abs_of_pos (by positivity : (0 : ℚ) < 8 * bb_z0 m b)]
    calc 8 * bb_z0 m b * |va01 m b - ((qm01 m b : ℤ) : ℚ)|
        ≤ 8 * bb_z0 m b * (1 / 2) := mul_le_mul_of_nonneg_left r1 (by positivity)
      _ = 4 * bb_z0 m b := by ring
  have hiden : (aff00 m b * (x - bb_x0 b) + aff01 m b * (y - bb_y0 b)) -
      bb_z0 m b * (rest_a00 (quantize_success m first off b).key b * (x - bb_x0 b) +
        rest_a01 (quantize_success m first off b).key b * (y - bb_y0 b)) =
      (aff00 m b - bb_z0 m b * rest_a00 (quantize_success m first off b).key b) *
          (x - bb_x0 b) +
        (aff01 m b - bb_z0 m b * rest_a01 (quantize_success m first off b).key b) *
          (y - bb_y0 b) := by ring
  rw [hiden]
  have t0 : |(aff00 m b - bb_z0 m b * rest_a00 (quantize_success m first off b).key b) *
      (x - bb_x0 b)| ≤
      |aff00 m b - bb_z0 m b * rest_a00 (quantize_success m first off b).key b| *
        bb_dx b :=
    abs_mul_le_mul _ _ _ _ (le_refl _) hx
  have t1 : |(aff01 m b - bb_z0 m b * rest_a01 (quantize_success m first off b).key b) *
      (y - bb_y0 b)| ≤
      |aff01 m b - bb_z0 m b * rest_a01 (quantize_success m first off b).key b| *
        bb_dy b :=
    abs_mul_le_mul _ _ _ _ (le_refl _) hy
  calc |(aff00 m b - bb_z0 m b * rest_a00 (quantize_success m first off b).key b) *
          (x - bb_x0 b) +
        (aff01 m b - bb_z0 m b * rest_a01 (quantize_success m first off b).key b) *
          (y - bb_y0 b)|
      ≤ |(aff00 m b - bb_z0 m b * rest_a00 (quantize_success m first off b).key b) *
            (x - bb_x0 b)| +
        |(aff01 m b - bb_z0 m b * rest_a01 (quantize_success m first off b).key b) *
            (y - bb_y0 b)| := abs_add _ _
    _ ≤ 8 * bb_z0 m b := by linarith

lemma n_err_y (m : Transform) (first : Bool) (off : ℚ × ℚ) (b : ASS_Rect)
    (x y : ℚ) (hbx : b.x_min ≤ b.x_max) (hby : b.y_min ≤ b.y_max)
    (hM : 0 < (recenter_input m b).m22)
    (hcond : (recenter_input m b).m22 ≤ 8 * bb_z0 m b)
    (hx : |x - bb_x0 b| ≤ bb_dx b) (hy : |y - bb_y0 b| ≤ bb_dy b) :
    |(aff10 m b * (x - bb_x0 b) + aff11 m b * (y - bb_y0 b)) -
        bb_z0 m b * (rest_a10 (quantize_success m first off b).key b * (x - bb_x0 b) +
          rest_a11 (quantize_success m first off b).key b * (y - bb_y0 b))| ≤
      8 * bb_z0 m b := by
  have hdx0 := bb_dx_pos b hbx
  have hdy0 := bb_dy_pos b hby
  have hs : 0 < bb_z0 m b := by linarith
  have hzc := zclamp_eq_z0 m b hM hcond
  have c0 : (aff10 m b -
      bb_z0 m b * rest_a10 (quantize_success m first off b).key b) * bb_dx b =
      8 * bb_z0 m b * (va10 m b - (qm10 m b : ℚ)) := by
    rw [aff_from_va10 m b (ne_of_gt hdx0) (ne_of_gt hs) hzc, key_rest_a10]
    unfold POSITION_PRECISION
    field_simp
    ring
  have c1 : (aff11 m b -
      bb_z0 m b * rest_a11 (quantize_success m first off b).key b) * bb_dy b =
      8 * bb_z0 m b * (va11 m b - (qm11 m b : ℚ)) := by
    rw [aff_from_va11 m b (ne_of_gt hdy0) (ne_of_gt hs) hzc, key_rest_a11]
    unfold POSITION_PRECISION
    field_simp
    ring
  have r0 : |va10 m b - ((qm10 m b : ℤ) : ℚ)| ≤ 1 / 2 := by
    unfold qm10
    exact abs_sub_round _
  have r1 : |va11 m b - ((qm11 m b : ℤ) : ℚ)| ≤ 1 / 2 := by
    unfold qm11
    exact abs_sub_round _
  have b0 : |aff10 m b -
      bb_z0 m b * rest_a10 (quantize_success m first off b).key b| * bb_dx b ≤
      4 * bb_z0 m b := by
    have h : |(aff10 m b -
        bb_z0 m b * rest_a10 (quantize_success m first off b).key b) * bb_dx b| =
        |aff10 m b -
          bb_z0 m b * rest_a10 (quantize_success m first off b).key b| * bb_dx b := by
      rw [abs_mul, abs_of_pos hdx0]
    rw [← h, c0, abs_mul, abs_of_pos (by positivity : (0 : ℚ) < 8 * bb_z0 m b)]
    calc 8 * bb_z0 m b * |va10 m b - ((qm10 m b : ℤ) : ℚ)|
        ≤ 8 * bb_z0 m b * (1 / 2) := mul_le_mul_of_nonneg_left r0 (by positivity)
      _ = 4 * bb_z0 m b := by ring
  have b1 : |aff11 m b -
      bb_z0 m b * rest_a11 (quantize_success m first off b).key b| * bb_dy b ≤
      4 * bb_z0 m b := by
    have h : |(aff11 m b -
        bb_z0 m b * rest_a11 (quantize_success m first off b).key b) * bb_dy b| =
        |aff11 m b -
          bb_z0 m b * rest_a11 (quantize_success m first off b).key b| * bb_dy b := by
      rw [abs_mul, abs_of_pos hdy0]
    rw [← h, c1, abs_mul, abs_of_pos (by positivity : (0 : ℚ) < 8 * bb_z0 m b)]
    calc 8 * bb_z0 m b * |va11 m b - ((qm11 m b : ℤ) : ℚ)|
        ≤ 8 * bb_z0 m b * (1 / 2) := mul_le_mul_of_nonneg_left r1 (by positivity)
      _ = 4 * bb_z0 m b := by ring
  have hiden : (aff10 m b * (x - bb_x0 b) + aff11 m b * (y - bb_y0 b)) -
      bb_z0 m b * (rest_a10 (quantize_success m first off b).key b * (x - bb_x0 b) +
        rest_a11 (quantize_success m first off b).key b * (y - bb_y0 b)) =
      (aff10 m b - bb_z0 m b * rest_a10 (quantize_success m first off b).key b) *
          (x - bb_x0 b) +
        (aff11 m b - bb_z0 m b * rest_a11 (quantize_success m first off b).key b) *
          (y - bb_y0 b) := by ring
  rw [hiden]
  have t0 : |(aff10 m b - bb_z0 m b * rest_a10 (quantize_success m first off b).key b) *
      (x - bb_x0 b)| ≤
      |aff10 m b - bb_z0 m b * rest_a10 (quantize_success m first off b).key b| *
        bb_dx b :=
    abs_mul_le_mul _ _ _ _ (le_refl _) hx
  have t1 : |(aff11 m b - bb_z0 m b * rest_a11 (quantize_success m first off b).key b) *
      (y - bb_y0 b)| ≤
      |aff11 m b - bb_z0 m b * rest_a11 (quantize_success m first off b).key b| *
        bb_dy b :=
    abs_mul_le_mul _ _ _ _ (le_refl _) hy
  calc |(aff10 m b - bb_z0 m b * rest_a10 (quantize_success m first off b).key b) *
          (x - bb_x0 b) +
        (aff11 m b - bb_z0 m b * rest_a11 (quantize_success m first off b).key b) *
          (y - bb_y0 b)|
      ≤ |(aff10 m b - bb_z0 m b * rest_a10 (quantize_success m first off b).key b) *
            (x - bb_x0 b)| +
        |(aff11 m b - bb_z0 m b * rest_a11 (quantize_success m first off b).key b) *
            (y - bb_y0 b)| := abs_add _ _
    _ ≤ 8 * bb_z0 m b := by linarith

lemma m22_pos_of_accept (m : Transform) (first : Bool) (off : ℚ × ℚ) (b : ASS_Rect)
    (hacc : quantize_transform m first off b ≠ none) :
    0 < (recenter_input m b).m22 := by
  by_contra h
  push_neg at h
  apply hacc
  unfold quantize_transform
  rw [if_pos h]

lemma roundtrip_x (m : Transform) (off : ℚ × ℚ) (b : ASS_Rect)
    (hbx : b.x_min ≤ b.x_max) (hby : b.y_min ≤ b.y_max)
    (hM : 0 < (recenter_input m b).m22)
    (hcond : (recenter_input m b).m22 ≤ 8 * bb_z0 m b)
    (hmax : max (qmx m b) (qmy m b) ≠ 0)
    (x y : ℚ) (hx : |x - bb_x0 b| ≤ bb_dx b) (hy : |y - bb_y0 b| ≤ bb_dy b) :
    |txf_x m x y - (64 * ((quantize_success m true off b).pos_x : ℚ) +
        txf_x (restore_transform (quantize_success m true off b).key b) x y)| ≤ 28 := by
  have hs : 0 < bb_z0 m b := by linarith
  have hZlow := txf_z_ge_z0 m b x y hx hy
  have hZpos : 0 < txf_z m x y := lt_of_lt_of_le hs hZlow
  have hZq1 := restore_z_ge_one m true off b x y hbx hby hM hcond hmax hx hy
  have hZqpos : 0 <
      txf_z (restore_transform (quantize_success m true off b).key b) x y :=
    lt_of_lt_of_le one_pos hZq1
  have hd1 := txf_x_decomp m b x y (ne_of_gt hM) (ne_of_gt hZpos)
  have hd2 := restore_txf_x_decomp (quantize_success m true off b).key b x y
    (ne_of_gt hZqpos)
  have hqc : center_x m b = 8 * qc_x m b true off.1 := by
    unfold qc_x
    simp
    ring
  have hpos : (quantize_success m true off b).pos_x =
      Int.fdiv (qr_x m b true off.1) 8 := rfl
  have hoff := key_rest_cx m true off b
  have hrec := fdiv_emod_recombine (qr_x m b true off.1)
  have he : |qc_x m b true off.1 - ((qr_x m b true off.1 : ℤ) : ℚ)| ≤ 1 / 2 := by
    unfold qr_x
    exact abs_sub_round _
  have hN := n_err_x m true off b x y hbx hby hM hcond hx hy
  have hprod := prod_bound_x m true off b x y hbx hby hM hcond hmax hx hy
  have hbound := roundtrip_coord_bound (bb_z0 m b) (txf_z m x y)
    (txf_z (restore_transform (quantize_success m true off b).key b) x y)
    (aff00 m b * (x - bb_x0 b) + aff01 m b * (y - bb_y0 b))
    (rest_a00 (quantize_success m true off b).key b * (x - bb_x0 b) +
      rest_a01 (quantize_success m true off b).key b * (y - bb_y0 b))
    (qc_x m b true off.1 - ((qr_x m b true off.1 : ℤ) : ℚ))
    hs hZlow hZq1 hN hprod he
  have harr : txf_x m x y - (64 * ((quantize_success m true off b).pos_x : ℚ) +
      txf_x (restore_transform (quantize_success m true off b).key b) x y) =
      (aff00 m b * (x - bb_x0 b) + aff01 m b * (y - bb_y0 b)) / txf_z m x y -
        (rest_a00 (quantize_success m true off b).key b * (x - bb_x0 b) +
          rest_a01 (quantize_success m true off b).key b * (y - bb_y0 b)) /
          txf_z (restore_transform (quantize_success m true off b).key b) x y +
        8 * (qc_x m b true off.1 - ((qr_x m b true off.1 : ℤ) : ℚ)) := by
    rw [hd1, hd2, hoff, hpos, hqc]
    linear_combination (-1 : ℚ) * hrec
  rw [harr]
  exact hbound

lemma roundtrip_y (m : Transform) (off : ℚ × ℚ) (b : ASS_Rect)
    (hbx : b.x_min ≤ b.x_max) (hby : b.y_min ≤ b.y_max)
    (hM : 0 < (recenter_input m b).m22)
    (hcond : (recenter_input m b).m22 ≤ 8 * bb_z0 m b)
    (hmax : max (qmx m b) (qmy m b) ≠ 0)
    (x y : ℚ) (hx : |x - bb_x0 b| ≤ bb_dx b) (hy : |y - bb_y0 b| ≤ bb_dy b) :
    |txf_y m x y - (64 * ((quantize_success m true off b).pos_y : ℚ) +
        txf_y (restore_transform (quantize_success m true off b).key b) x y)| ≤ 28 := by
  have hs : 0 < bb_z0 m b := by linarith
  have hZlow := txf_z_ge_z0 m b x y hx hy
  have hZpos : 0 < txf_z m x y := lt_of_lt_of_le hs hZlow
  have hZq1 := restore_z_ge_one m true off b x y hbx hby hM hcond hmax hx hy
  have hZqpos : 0 <
      txf_z (restore_transform (quantize_success m true off b).key b) x y :=
    lt_of_lt_of_le one_pos hZq1
  have hd1 := txf_y_decomp m b x y (ne_of_gt hM) (ne_of_gt hZpos)
  have hd2 := restore_txf_y_decomp (quantize_success m true off b).key b x y
    (ne_of_gt hZqpos)
  have hqc : center_y m b = 8 * qc_y m b true off.2 := by
    unfold qc_y
    simp
    ring
  have hpos : (quantize_success m true off b).pos_y =
      Int.fdiv (qr_y m b true off.2) 8 := rfl
  have hoff := key_rest_cy m true off b
  have hrec := fdiv_emod_recombine (qr_y m b true off.2)
  have he : |qc_y m b true off.2 - ((qr_y m b true off.2 : ℤ) : ℚ)| ≤ 1 / 2 := by
    unfold qr_y
    exact abs_sub_round _
  have hN := n_err_y m true off b x y hbx hby hM hcond hx hy
  have hprod := prod_bound_y m true off b x y hbx hby hM hcond hmax hx hy
  have hbound := roundtrip_coord_bound (bb_z0 m b) (txf_z m x y)
    (txf_z (restore_transform (quantize_success m true off b).key b) x y)
    (aff10 m b * (x - bb_x0 b) + aff11 m b * (y - bb_y0 b))
    (rest_a10 (quantize_success m true off b).key b * (x - bb_x0 b) +
      rest_a11 (quantize_success m true off b).key b * (y - bb_y0 b))
    (qc_y m b true off.2 - ((qr_y m b true off.2 : ℤ) : ℚ))
    hs hZlow hZq1 hN hprod he
  have harr : txf_y m x y - (64 * ((quantize_success m true off b).pos_y : ℚ) +
      txf_y (restore_transform (quantize_success m true off b).key b) x y) =
      (aff10 m b * (x - bb_x0 b) + aff11 m b * (y - bb_y0 b)) / txf_z m x y -
        (rest_a10 (quantize_success m true off b).key b * (x - bb_x0 b) +
          rest_a11 (quantize_success m true off b).key b * (y - bb_y0 b)) /
          txf_z (restore_transform (quantize_success m true off b).key b) x y +
        8 * (qc_y m b true off.2 - ((qr_y m b true off.2 : ℤ) : ℚ)) := by
    rw [hd1, hd2, hoff, hpos, hqc]
    linear_combination (-1 : ℚ) * hrec
  rw [harr]
  exact hbound

lemma round_eq_int (q : ℚ) (n : ℤ) (h1 : (n : ℚ) ≤ q + 1 / 2) (h2 : q + 1 / 2 < n + 1) :
    round q = n := by
  rw [round_eq]
  exact Int.floor_eq_iff.mpr ⟨h1, h2⟩

/-- **C2 (amended).** For a transform accepted by `quantize_transform` as the
first glyph of a run, with a valid bounding box, a well-conditioned z-range
over the quantization box (`m22 <= 8 * z0` after recentering, comfortably
inside the `MAX_PERSP_SCALE` clamp threshold of 16), and at least one affine
coefficient quantizing to a nonzero integer (`max (qmx, qmy) ≠ 0`; otherwise
the C `restore_transform` divides by zero and fills the restored matrix with
NaN, see `rest_scale_z`), the transform rebuilt by
`restore_transform` from the produced key, composed with the whole-pixel
position output, reproduces the original projective map at every point of the
quantization box to within `7/2 * POSITION_PRECISION` (28 units of 1/64 pixel)
in each device coordinate. -/
theorem restore_quantize_roundtrip (m : Transform) (off : ℚ × ℚ) (b : ASS_Rect)
    (hbx : b.x_min ≤ b.x_max) (hby : b.y_min ≤ b.y_max)
    (hacc : quantize_transform m true off b ≠ none)
    (hcond : (recenter_input m b).m22 ≤ 8 * bb_z0 m b)
    (hmax : max (qmx m b) (qmy m b) ≠ 0)
    (x y : ℚ) (hx : |x - bb_x0 b| ≤ bb_dx b) (hy : |y - bb_y0 b| ≤ bb_dy b) :
    |txf_x m x y - (64 * ((quantize_success m true off b).pos_x : ℚ) +
        txf_x (restore_transform (quantize_success m true off b).key b) x y)| ≤
      7 / 2 * POSITION_PRECISION ∧
    |txf_y m x y - (64 * ((quantize_success m true off b).pos_y : ℚ) +
        txf_y (restore_transform (quantize_success m true off b).key b) x y)| ≤
      7 / 2 * POSITION_PRECISION := by
  have hM := m22_pos_of_accept m true off b hacc
  have h28 : (7 : ℚ) / 2 * POSITION_PRECISION = 28 := by
    norm_num [POSITION_PRECISION]
  constructor
  · rw [h28]
    exact roundtrip_x m off b hbx hby hM hcond hmax x y hx hy
  · rw [h28]
    exact roundtrip_y m off b hbx hby hM hcond hmax x y hx hy

/-- Concrete identity-like transform used to instantiate the round-trip
theorem. -/
def wit_m : Transform :=
  { m00 := 1, m01 := 0, m02 := 0
    m10 := 0, m11 := 1, m12 := 0
    m20 := 0, m21 := 0, m22 := 1 }

/-- A 2x2-pixel bounding box centered at the origin. -/
def wit_b : ASS_Rect := { x_min := -64, y_min := -64, x_max := 64, y_max := 64 }

theorem restore_quantize_roundtrip_witness :
    |txf_x wit_m 0 0 - (64 * ((quantize_success wit_m true (0, 0) wit_b).pos_x : ℚ) +
        txf_x (restore_transform (quantize_success wit_m true (0, 0) wit_b).key wit_b)
          0 0)| ≤ 7 / 2 * POSITION_PRECISION ∧
    |txf_y wit_m 0 0 - (64 * ((quantize_success wit_m true (0, 0) wit_b).pos_y : ℚ) +
        txf_y (restore_transform (quantize_success wit_m true (0, 0) wit_b).key wit_b)
          0 0)| ≤ 7 / 2 * POSITION_PRECISION :=
  restore_quantize_roundtrip wit_m (0, 0) wit_b (by decide) (by decide)
    (by
      unfold quantize_transform
      norm_num [recenter_input, qc_x, qc_y, center_x, center_y, va00, va01, va10,
        va11, aff00, aff01, aff10, aff11, mul_x, mul_y, bb_zclamp, bb_z0, vz0, vz1,
        bb_dx, bb_dy, bb_x0, bb_y0, max_val, MAX_PERSP_SCALE, POSITION_PRECISION,
        wit_m, wit_b, max_def]
      exact Option.some_ne_none _)
    (by norm_num [recenter_input, bb_z0, bb_dx, bb_dy, bb_x0, bb_y0, wit_m, wit_b])
    (by
      have hM22 : (recenter_input wit_m wit_b).m22 = 1 := by
        norm_num [recenter_input, bb_x0, bb_y0, wit_m, wit_b]
      have hz0 : bb_z0 wit_m wit_b = 1 := by
        have ha : |wit_m.m20| = 0 := by
          rw [show wit_m.m20 = (0 : ℚ) from rfl, abs_zero]
        have hb : |wit_m.m21| = 0 := by
          rw [show wit_m.m21 = (0 : ℚ) from rfl, abs_zero]
        unfold bb_z0
        rw [hM22, ha, hb]
        norm_num
      have hzcl : bb_zclamp wit_m wit_b = 1 := by
        unfold bb_zclamp
        rw [hz0, hM22]
        norm_num [MAX_PERSP_SCALE, max_def]
      have hmulx : mul_x wit_m wit_b = 16 := by
        unfold mul_x
        rw [hzcl]
        norm_num [POSITION_PRECISION, bb_dx, wit_b]
      have hcx : center_x wit_m wit_b = 0 := by
        unfold center_x
        norm_num [recenter_input, bb_x0, bb_y0, wit_m, wit_b]
      have haff00 : aff00 wit_m wit_b = 1 := by
        unfold aff00
        rw [hcx]
        norm_num [wit_m]
      have hva00 : va00 wit_m wit_b = 16 := by
        unfold va00
        rw [haff00, hmulx]
        norm_num
      have hqm00 : qm00 wit_m wit_b = 16 := by
        unfold qm00
        rw [hva00]
        exact round_eq_int _ _ (by norm_num) (by norm_num)
      intro h
      have h1 : qmx wit_m wit_b ≤ max (qmx wit_m wit_b) (qmy wit_m wit_b) :=
        le_max_left _ _
      have h2 : 16 ≤ qmx wit_m wit_b := by
        unfold qmx
        rw [hqm00, show |(16 : ℤ)| = 16 by decide]
        have := abs_nonneg (qm01 wit_m wit_b)
        omega
      rw [h] at h1
      omega)
    0 0 (by norm_num [bb_x0, bb_dx, wit_b]) (by norm_num [bb_y0, bb_dy, wit_b])


/-- A perspective transform whose z-range over the box dips far below the
`MAX_PERSP_SCALE` clamp threshold (`z0 < 0 < m22`), so the quantization steps
are sized from the clamped `m22 / 16` rather than from `z0`.  All its
coefficients are dyadic rationals, exactly representable as doubles, and all
intermediate quantizer values are computed exactly in double arithmetic, so the
rational evaluation below matches the C code bit for bit (the only inexact
double operation is the final division of the transform application, whose
relative error is negligible against the margin of the bound violated). -/
def cex_m : Transform :=
  { m00 := 1, m01 := 0, m02 := 0
    m10 := 0, m11 := 1, m12 := 0
    m20 := 65537 / 2097152, m21 := 0, m22 := 1 }

/-- The original C2 reading is false: this accepted transform, evaluated at a
point of its quantization box, is displaced by more than `1000 *
POSITION_PRECISION` after the quantize/restore round trip.  Near the line
where the original z vanishes inside the box (possible exactly when the
`MAX_PERSP_SCALE` clamp is active, since acceptance only checks z at the
center), the half-step rounding error of the quantized perspective row shifts
the pole of the restored transform, and the displacement between the two
projective maps grows without bound. -/
theorem restore_quantize_budget_cex :
    quantize_transform cex_m true (0, 0) wit_b ≠ none ∧
    |(-4095 / 128 : ℚ) - bb_x0 wit_b| ≤ bb_dx wit_b ∧
    |(0 : ℚ) - bb_y0 wit_b| ≤ bb_dy wit_b ∧
    1000 * POSITION_PRECISION <
      |txf_x cex_m (-4095 / 128) 0 -
        (64 * ((quantize_success cex_m true (0, 0) wit_b).pos_x : ℚ) +
          txf_x (restore_transform (quantize_success cex_m true (0, 0) wit_b).key
            wit_b) (-4095 / 128) 0)| := by
  have hM22 : (recenter_input cex_m wit_b).m22 = 1 := by
    norm_num [recenter_input, bb_x0, bb_y0, cex_m, wit_b]
  have hz0v : bb_z0 cex_m wit_b = -49153 / 16384 := by
    have ha : |cex_m.m20| = 65537 / 2097152 := by
      rw [show cex_m.m20 = (65537 : ℚ) / 2097152 from rfl]
      exact abs_of_pos (by norm_num)
    have hb : |cex_m.m21| = 0 := by
      rw [show cex_m.m21 = (0 : ℚ) from rfl, abs_zero]
    unfold bb_z0
    rw [hM22, ha, hb]
    norm_num [bb_dx, bb_dy, wit_b]
  have hzcl : bb_zclamp cex_m wit_b = 1 / 16 := by
    unfold bb_zclamp
    rw [hz0v, hM22]
    norm_num [MAX_PERSP_SCALE, max_def]
  have hmulx : mul_x cex_m wit_b = 256 := by
    unfold mul_x
    rw [hzcl]
    norm_num [POSITION_PRECISION, bb_dx, wit_b]
  have hmuly : mul_y cex_m wit_b = 256 := by
    unfold mul_y
    rw [hzcl]
    norm_num [POSITION_PRECISION, bb_dy, wit_b]
  have hcx : center_x cex_m wit_b = 0 := by
    unfold center_x
    norm_num [recenter_input, bb_x0, bb_y0, cex_m, wit_b]
  have hcy : center_y cex_m wit_b = 0 := by
    unfold center_y
    norm_num [recenter_input, bb_x0, bb_y0, cex_m, wit_b]
  have haff00 : aff00 cex_m wit_b = 1 := by
    unfold aff00
    rw [hcx]
    norm_num [cex_m]
  have haff01 : aff01 cex_m wit_b = 0 := by
    unfold aff01
    rw [hcx]
    norm_num [cex_m]
  have haff10 : aff10 cex_m wit_b = 0 := by
    unfold aff10
    rw [hcy]
    norm_num [cex_m]
  have haff11 : aff11 cex_m wit_b = 1 := by
    unfold aff11
    rw [hcy]
    norm_num [cex_m]
  have hva00 : va00 cex_m wit_b = 256 := by
    unfold va00
    rw [haff00, hmulx]
    norm_num
  have hva01 : va01 cex_m wit_b = 0 := by
    unfold va01
    rw [haff01, hmuly]
    norm_num
  have hva10 : va10 cex_m wit_b = 0 := by
    unfold va10
    rw [haff10, hmulx]
    norm_num
  have hva11 : va11 cex_m wit_b = 256 := by
    unfold va11
    rw [haff11, hmuly]
    norm_num
  have hqm00 : qm00 cex_m wit_b = 256 := by
    unfold qm00
    rw [hva00]
    exact round_eq_int _ _ (by norm_num) (by norm_num)
  have hqm01 : qm01 cex_m wit_b = 0 := by
    unfold qm01
    rw [hva01]
    simp
  have hqm10 : qm10 cex_m wit_b = 0 := by
    unfold qm10
    rw [hva10]
    simp
  have hqm11 : qm11 cex_m wit_b = 256 := by
    unfold qm11
    rw [hva11]
    exact round_eq_int _ _ (by norm_num) (by norm_num)
  have hqmx : qmx cex_m wit_b = 256 := by
    unfold qmx
    rw [hqm00, hqm01]
    decide
  have hqmy : qmy cex_m wit_b = 256 := by
    unfold qmy
    rw [hqm10, hqm11]
    decide
  have hpw : persp_w cex_m wit_b = 2048 := by
    unfold persp_w
    rw [hqmx, hqmy]
    norm_num [POSITION_PRECISION]
  have hvz0 : vz0 cex_m wit_b = 65537 / 4 := by
    unfold vz0
    rw [hmulx, hpw]
    norm_num [cex_m]
  have hvz1 : vz1 cex_m wit_b = 0 := by
    unfold vz1
    rw [hmuly, hpw]
    norm_num [cex_m]
  have hqz0 : qz0 cex_m wit_b = 16384 := by
    unfold qz0
    rw [hvz0]
    exact round_eq_int _ _ (by norm_num) (by norm_num)
  have hqz1 : qz1 cex_m wit_b = 0 := by
    unfold qz1
    rw [hvz1]
    simp
  have hqcx : qc_x cex_m wit_b true 0 = 0 := by
    unfold qc_x
    rw [hcx]
    norm_num
  have hqcy : qc_y cex_m wit_b true 0 = 0 := by
    unfold qc_y
    rw [hcy]
    norm_num
  have hqrx : qr_x cex_m wit_b true 0 = 0 := by
    unfold qr_x
    rw [hqcx]
    simp
  have hacc : quantize_transform cex_m true (0, 0) wit_b ≠ none := by
    unfold quantize_transform
    dsimp only
    rw [hM22, hqcx, hqcy, hva00, hva01, hva10, hva11, hvz0, hvz1]
    rw [show |(65537 : ℚ) / 4| = 65537 / 4 from abs_of_pos (by norm_num)]
    norm_num [max_val]
    all_goals exact Option.some_ne_none _
  have hra00 : rest_a00 (quantize_success cex_m true (0, 0) wit_b).key wit_b = 16 := by
    rw [key_rest_a00 cex_m true (0, 0) wit_b, hqm00]
    norm_num [POSITION_PRECISION, bb_dx, wit_b]
  have hra01 : rest_a01 (quantize_success cex_m true (0, 0) wit_b).key wit_b = 0 := by
    rw [key_rest_a01 cex_m true (0, 0) wit_b, hqm01]
    norm_num
  have hra10 : rest_a10 (quantize_success cex_m true (0, 0) wit_b).key wit_b = 0 := by
    rw [key_rest_a10 cex_m true (0, 0) wit_b, hqm10]
    norm_num
  have hra11 : rest_a11 (quantize_success cex_m true (0, 0) wit_b).key wit_b = 16 := by
    rw [key_rest_a11 cex_m true (0, 0) wit_b, hqm11]
    norm_num [POSITION_PRECISION, bb_dy, wit_b]
  have hrp0 : rest_p0 (quantize_success cex_m true (0, 0) wit_b).key wit_b = 1 / 2 := by
    rw [key_rest_p0 cex_m true (0, 0) wit_b, hqz0, hpw]
    norm_num [POSITION_PRECISION, bb_dx, wit_b]
  have hrp1 : rest_p1 (quantize_success cex_m true (0, 0) wit_b).key wit_b = 0 := by
    rw [key_rest_p1 cex_m true (0, 0) wit_b, hqz1, hpw]
    norm_num
  have hrm22 : rest_m22 (quantize_success cex_m true (0, 0) wit_b).key wit_b = 16 := by
    unfold rest_m22
    rw [hrp0, hrp1]
    rw [show |(1 : ℚ) / 2| = 1 / 2 from abs_of_pos (by norm_num), abs_zero]
    norm_num [MAX_PERSP_SCALE, bb_dx, bb_dy, wit_b, min_def]
  have hrcx : rest_cx (quantize_success cex_m true (0, 0) wit_b).key = 0 := by
    rw [key_rest_cx cex_m true (0, 0) wit_b]
    dsimp only
    rw [hqrx]
    norm_num
  have hpos : (quantize_success cex_m true (0, 0) wit_b).pos_x = 0 := by
    have h : (quantize_success cex_m true (0, 0) wit_b).pos_x =
        Int.fdiv (qr_x cex_m wit_b true 0) 8 := rfl
    rw [h, hqrx]
    decide
  have hX : txf_x cex_m (-4095 / 128) 0 = -8587837440 / 61441 := by
    unfold txf_x txf_z
    norm_num [cex_m]
  have hXq : txf_x (restore_transform (quantize_success cex_m true (0, 0) wit_b).key
      wit_b) (-4095 / 128) 0 = -131040 := by
    unfold txf_x txf_z restore_transform
    dsimp only
    rw [hra00, hra01, hrp0, hrp1, hrm22, hrcx]
    norm_num [bb_x0, bb_y0, wit_b]
  refine ⟨hacc, ?_, ?_, ?_⟩
  · rw [show (-4095 / 128 : ℚ) - bb_x0 wit_b = -(4095 / 128) by
        norm_num [bb_x0, wit_b]]
    rw [abs_neg, abs_of_pos (show (0 : ℚ) < 4095 / 128 by norm_num)]
    norm_num [bb_dx, wit_b]
  · norm_num [bb_y0, bb_dy, wit_b]
  · rw [hX, hXq, hpos]
    rw [show (-8587837440 / 61441 : ℚ) - (64 * ((0 : ℤ) : ℚ) + -131040) =
        -(536608800 / 61441) by norm_num]
    rw [abs_neg, abs_of_pos (show (0 : ℚ) < 536608800 / 61441 by norm_num)]
    norm_num [POSITION_PRECISION]
